import Mathlib

/-!
The govader sentiment scorer

A shallow embedding of `sentiment_analyzer.go`.

* `float64` values are elements of an arbitrary linearly ordered field `K`
  (exact arithmetic); concrete evaluations are carried out in `ℚ`.
* A Go slice is a `List`; an index expression `xs[j]` with `j : int` is
  `idx xs j : Option _`, where `none` is the run-time panic
  "index out of range".  Functions that index slices return `Option`.
* A Go `map[string]T` is a function `String → Option T`.
* Functions of the package whose bodies are not in the analysed sources are
  either parameters (`math.Sqrt`, `punctuationEmphasis`, the methods of
  `TermConstants`) or modelled from the specification, as marked.
-/

namespace Govader

/-! ## Data model -/

/-- The result record of `sentiment_analyzer.go` (lines 26-31). -/
structure Sentiment (K : Type) where
  Negative : K
  Neutral : K
  Positive : K
  Compound : K

/-- The zero value `var sentiment Sentiment` of Go. -/
def Sentiment.zero {K : Type} [Zero K] : Sentiment K :=
  { Negative := 0, Neutral := 0, Positive := 0, Compound := 0 }

section Aggregator

variable {K : Type} [LinearOrderedField K]

/-- Modelled from the spec: the helper `siftSentimentScores`, whose body is not
in the analysed sources.  The valence sequence is partitioned into the sum of
its positive entries, the (signed) sum of its negative entries and the number
of entries that are exactly zero. -/
def siftSentimentScores (sentiments : List K) : K × K × Nat :=
  ((sentiments.filter (fun v => 0 < v)).sum,
   (sentiments.filter (fun v => v < 0)).sum,
   (sentiments.filter (fun v => v = 0)).length)

/-- Modelled from the spec: the helper `normalize`, whose body is not in the
analysed sources: `score / sqrt(score^2 + alpha)`.  The square root of the
math library is the parameter `sqrt`. -/
def normalize (sqrt : K → K) (score alpha : K) : K :=
  score / sqrt (score * score + alpha)

/-- Modelled from the spec: the helper `normalizeDefault`, whose body is not in
the analysed sources: `normalize` with the fixed `alpha = 15`. -/
def normalizeDefault (sqrt : K → K) (score : K) : K :=
  normalize sqrt score 15

/-- Lines 201-207 of `ScoreValence`: the sum of the valences, pushed away from
zero by the punctuation amplifier.  `mat.Sum` of the vector is the sum of the
list.  The helper `punctuationEmphasis` is a parameter. -/
def ScoreValence.sumS (punctuationEmphasis : String → K)
    (sentiments : List K) (text : String) : K :=
  let sumS := sentiments.sum
  let punctEmphAmplifier := punctuationEmphasis text
  if sumS > 0 then sumS + punctEmphAmplifier
  else if sumS < 0 then sumS - punctEmphAmplifier
  else sumS

/-- Lines 210-215 of `ScoreValence`: the sifted sums after the punctuation
amplifier has been applied to the side of larger magnitude.  The helper
`punctuationEmphasis` is a parameter. -/
def ScoreValence.sums (punctuationEmphasis : String → K)
    (sentiments : List K) (text : String) : K × K × Nat :=
  let punctEmphAmplifier := punctuationEmphasis text
  let sifted := siftSentimentScores sentiments
  let posSum := sifted.1
  let negSum := sifted.2.1
  let neuCount := sifted.2.2
  if posSum > |negSum| then (posSum + punctEmphAmplifier, negSum, neuCount)
  else if posSum < |negSum| then (posSum, negSum - punctEmphAmplifier, neuCount)
  else (posSum, negSum, neuCount)

/-- Line 216 of `ScoreValence`: the divisor `total`. -/
def ScoreValence.total (punctuationEmphasis : String → K)
    (sentiments : List K) (text : String) : K :=
  let sums := ScoreValence.sums punctuationEmphasis sentiments text
  sums.1 + |sums.2.1| + (sums.2.2 : K)

/-- The function `ScoreValence` of `sentiment_analyzer.go` (lines 197-223).
The helper
`punctuationEmphasis` and the library function `math.Sqrt` are parameters. -/
def ScoreValence (sqrt : K → K) (punctuationEmphasis : String → K)
    (sentiments : List K) (text : String) : Sentiment K :=
  if sentiments.length > 0 then
    let sumS := ScoreValence.sumS punctuationEmphasis sentiments text
    let sums := ScoreValence.sums punctuationEmphasis sentiments text
    let posSum := sums.1
    let negSum := sums.2.1
    let neuCount := sums.2.2
    let total := ScoreValence.total punctuationEmphasis sentiments text
    { Compound := normalizeDefault sqrt sumS
      Positive := |posSum / total|
      Negative := |negSum / total|
      Neutral := |(neuCount : K) / total| }
  else
    Sentiment.zero

/-- The square-root contract assumed of `math.Sqrt` in exact arithmetic: on a
non-negative argument the result is non-negative and squares to the argument. -/
def IsSqrt (sqrt : K → K) : Prop :=
  ∀ x : K, 0 ≤ x → 0 ≤ sqrt x ∧ sqrt x * sqrt x = x

/-- Modelled from the spec: the exclamation-mark part of the helper
`punctuationEmphasis`, whose body is not in the analysed sources: the number
of "!" in the text, capped at 4, each worth 0.292. -/
def amplifyEP (text : String) : K :=
  ((min (text.toList.count '!') 4 : Nat) : K) * (292 / 1000)

end Aggregator

/-! ## Per-token valence scorer -/

section Scorer

variable {K : Type} [LinearOrderedField K]

/-- The Go index expression `xs[j]` for `j : int`: `none` is the run-time
panic "index out of range". -/
def idx {α : Type} (xs : List α) (j : Int) : Option α :=
  if j < 0 then none else xs[j.toNat]?

/-- Modelled from the spec: the type `SentiText`, whose declaration is not in
the analysed sources: the ordered tokens, their lower-cased view and the
whole-text capitalization-contrast flag. -/
structure SentiText where
  WordsAndEmoticons : List String
  WordsAndEmoticonsLower : List String
  IsCapDiff : Bool

/-- The type `TermConstants`, whose declaration is not in the analysed
sources: the fields and methods that `sentiment_analyzer.go` uses of it.
`stringIsUpper` is the method of its `Regex` field. -/
structure TermConstants (K : Type) where
  BoosterDict : String → Option K
  NegateList : List String
  stringIsUpper : String → Bool
  scalarIncDec : String → String → K → Bool → K
  specialIdiomsCheck : K → List String → Int → (String → Option K) → K

/-- The record `SentimentIntensityAnalyzer` of `sentiment_analyzer.go`
(lines 19-23). -/
structure SentimentIntensityAnalyzer (K : Type) where
  Lexicon : String → Option K
  EmojiDict : String → Option String
  Constants : TermConstants K

/-- Free functions called by `SentimentValence` whose bodies are not in the
analysed sources: `strings.ToLower` of the standard library and the package
function `negationCheck`. -/
structure Helpers (K : Type) where
  ToLower : String → String
  negationCheck : K → List String → Int → Int → List String → K

/-- Modelled from the spec: the helper `inStringMap`, whose body is not in the
analysed sources: the map existence check. -/
def inStringMap {V : Type} (m : String → Option V) (key : String) : Bool :=
  (m key).isSome

/-- Modelled from the spec: the helper `inStringSlice`, whose body is not in
the analysed sources: membership of a string in a slice. -/
def inStringSlice (xs : List String) (key : String) : Bool :=
  decide (key ∈ xs)

/-- The Go map index expression `m[key]`: the zero value when the key is
absent. -/
def mapGet (m : String → Option K) (key : String) : K :=
  (m key).getD 0

/-- Modelled from the spec: the constant `nSCALAR`, whose declaration is not in
the analysed sources: the negation scalar -0.74. -/
def nSCALAR : K := -(74 / 100)

/-- Modelled from the spec: the constant `cINCR`, whose declaration is not in
the analysed sources: the all-caps emphasis constant 0.733. -/
def cINCR : K := 733 / 1000

/-- Lines 129-132 of `SentimentValence`: a fresh slice of the same length,
filled entry by entry from `sentiments`. -/
def copySlice (sentiments : List K) : List K :=
  sentiments.enum.foldl (fun out p => out.set p.1 p.2) (List.replicate sentiments.length 0)

/-- The condition shared by both branches of `leastCheck` (lines 181-183 and
188-190), evaluated left to right with short-circuit. -/
def leastCond (sia : SentimentIntensityAnalyzer K) (wordsAndEmoticonsLower : List String)
    (i : Int) : Option Bool :=
  if i > 0 then
    (idx wordsAndEmoticonsLower (i - 1)).bind fun w =>
      if !inStringMap sia.Lexicon w then some (decide (w = "least"))
      else some false
  else some false

/-- The method `leastCheck` of `sentiment_analyzer.go` (lines 178-194). -/
def leastCheck (sia : SentimentIntensityAnalyzer K) (valence : K)
    (wordsAndEmoticonsLower : List String) (i : Int) : Option K :=
  let newValence := valence
  (leastCond sia wordsAndEmoticonsLower i).bind fun c1 =>
    if c1 then
      (idx wordsAndEmoticonsLower (i - 2)).bind fun w2 =>
        if w2 ≠ "at" ∧ w2 ≠ "very" then some (newValence * nSCALAR)
        else some newValence
    else
      (leastCond sia wordsAndEmoticonsLower i).bind fun c2 =>
        if c2 then some (newValence * nSCALAR)
        else some newValence

/-- Lines 141-143 of `SentimentValence`: the condition of the "no" trigram
rule, evaluated left to right with short-circuit. -/
def noBefore (wordsAndEmoticonsLower : List String) (i : Int) : Option Bool :=
  (if i > 0 then (idx wordsAndEmoticonsLower (i - 1)).map fun w => decide (w = "no")
   else some false).bind fun a =>
  if a then some true
  else
    (if i > 1 then (idx wordsAndEmoticonsLower (i - 2)).map fun w => decide (w = "no")
     else some false).bind fun b =>
    if b then some true
    else if i > 2 then
      (idx wordsAndEmoticonsLower (i - 3)).bind fun w3 =>
        if w3 = "no" then
          (idx wordsAndEmoticonsLower (i - 1)).map fun w1 => inStringSlice ["or", "nor"] w1
        else some false
    else some false

/-- Lines 156-170 of `SentimentValence`: one round of the look-back loop, for
the distance `startI`. -/
def lookBack (hp : Helpers K) (sia : SentimentIntensityAnalyzer K) (sit : SentiText)
    (i : Int) (newValence : K) (startI : Int) : Option K :=
  if i > startI then
    (idx sit.WordsAndEmoticons (i - (startI + 1))).bind fun w =>
      if !inStringMap sia.Lexicon w then
        (idx sit.WordsAndEmoticonsLower (i - (startI + 1))).bind fun wl =>
          let s := sia.Constants.scalarIncDec w wl newValence sit.IsCapDiff
          let s := if startI = 1 ∧ s ≠ 0 then s * (95 / 100) else s
          let s := if startI = 2 ∧ s ≠ 0 then s * (9 / 10) else s
          let newValence := newValence + s
          let newValence :=
            hp.negationCheck newValence sit.WordsAndEmoticonsLower startI i
              sia.Constants.NegateList
          let newValence :=
            if startI = 2 then
              sia.Constants.specialIdiomsCheck newValence sit.WordsAndEmoticonsLower i
                sia.Constants.BoosterDict
            else newValence
          some newValence
      else some newValence
  else some newValence

/-- Lines 136-173 of `SentimentValence`: the valence computed for the token
`item` at index `i`. -/
def tokenValence (hp : Helpers K) (sia : SentimentIntensityAnalyzer K) (valence : K)
    (sit : SentiText) (item : String) (i : Int) : Option K :=
  let isCapDiff := sit.IsCapDiff
  let wordsAndEmoticons := sit.WordsAndEmoticons
  let wordsAndEmoticonsLower := sit.WordsAndEmoticonsLower
  let itemLower := hp.ToLower item
  if inStringMap sia.Lexicon itemLower then
    let newValence := mapGet sia.Lexicon itemLower
    (if itemLower = "no" then
        (idx wordsAndEmoticonsLower (i + 1)).map fun next =>
          if inStringMap sia.Lexicon next then 0 else newValence
      else some newValence).bind fun newValence =>
    (noBefore wordsAndEmoticonsLower i).bind fun c =>
    let newValence := if c then mapGet sia.Lexicon itemLower * nSCALAR else newValence
    let newValence :=
      if sia.Constants.stringIsUpper item && isCapDiff then
        if newValence > 0 then newValence + cINCR else newValence - cINCR
      else newValence
    ([0, 1, 2].foldlM (lookBack hp sia sit i) newValence).bind fun newValence =>
    leastCheck sia newValence wordsAndEmoticons i
  else some valence

/-- The method `SentimentValence` of `sentiment_analyzer.go` (lines 123-176). -/
def SentimentValence (hp : Helpers K) (sia : SentimentIntensityAnalyzer K) (valence : K)
    (sit : SentiText) (item : String) (i : Int) (sentiments : List K) : Option (List K) :=
  let outSentiments := copySlice sentiments
  (tokenValence hp sia valence sit item i).map fun newValence =>
    outSentiments ++ [newValence]

/-- The body of the scoring loop of `PolarityScores` (lines 99-110), for the
token `item` at index `i`. -/
def scoreToken (hp : Helpers K) (sia : SentimentIntensityAnalyzer K) (sit : SentiText)
    (sentiments : List K) (i : Nat) (item : String) : Option (List K) :=
  let valence : K := 0
  (idx sit.WordsAndEmoticonsLower i).bind fun itemLower =>
    if inStringMap sia.Constants.BoosterDict itemLower then some (sentiments ++ [valence])
    else if (i : Int) < (sit.WordsAndEmoticons.length : Int) - 1 ∧ itemLower = "kind" then
      (idx sit.WordsAndEmoticonsLower ((i : Int) + 1)).bind fun next =>
        if next = "of" then some (sentiments ++ [valence])
        else SentimentValence hp sia valence sit item i sentiments
    else SentimentValence hp sia valence sit item i sentiments

/-- The scoring loop of `PolarityScores` (lines 98-111) from index `i` on:
`items` are the tokens not yet visited. -/
def scoreFrom (hp : Helpers K) (sia : SentimentIntensityAnalyzer K) (sit : SentiText) :
    List String → Nat → List K → Option (List K)
  | [], _, sentiments => some sentiments
  | item :: rest, i, sentiments =>
    (scoreToken hp sia sit sentiments i item).bind fun sentiments =>
      scoreFrom hp sia sit rest (i + 1) sentiments

/-- The scoring loop of `PolarityScores` (lines 95-111): the valence sequence
before the "but" adjustment. -/
def scoringLoop (hp : Helpers K) (sia : SentimentIntensityAnalyzer K) (sit : SentiText) :
    Option (List K) :=
  scoreFrom hp sia sit sit.WordsAndEmoticons 0 []

/-! ### A small analyzer for concrete evaluations -/

/-- An excerpt of a lexicon with the two words "no" and "good". -/
def sampleLexicon : String → Option ℚ := fun w =>
  if w = "no" then some (-(12 / 10)) else if w = "good" then some (19 / 10) else none

/-- Constants for concrete evaluations: "very" is the one booster word, a
token counts as upper-case when all its characters are upper-case letters, and
the look-back helpers contribute nothing. -/
def sampleConstants : TermConstants ℚ where
  BoosterDict := fun w => if w = "very" then some (293 / 1000) else none
  NegateList := ["not", "never"]
  stringIsUpper := fun s => s.toList.all Char.isUpper
  scalarIncDec := fun _ _ _ _ => 0
  specialIdiomsCheck := fun v _ _ _ => v

/-- The analyzer for concrete evaluations. -/
def sampleAnalyzer : SentimentIntensityAnalyzer ℚ where
  Lexicon := sampleLexicon
  EmojiDict := fun _ => none
  Constants := sampleConstants

/-- Helpers for concrete evaluations: lower-casing character by character and
a negation check that changes nothing. -/
def sampleHelpers : Helpers ℚ where
  ToLower := fun s => String.mk (s.toList.map Char.toLower)
  negationCheck := fun v _ _ _ _ => v

end Scorer

/-! ## Text preparation -/

section TextPreparation

variable {K : Type} [LinearOrderedField K]

/-- Modelled from the spec: the helper `inStringStringMap`, whose body is not
in the analysed sources: the map existence check on a string-to-string map. -/
def inStringStringMap (m : String → Option String) (key : String) : Bool :=
  (m key).isSome

/-- Lines 75-89 of `PolarityScores`: one round of the emoji loop, for the code
point `r`.  The state is the pair of `textNoEmoji` and `prevSpace`;
`string(rune)` is the one-code-point string. -/
def emojiStep (sia : SentimentIntensityAnalyzer K) (st : String × Bool) (r : Char) :
    String × Bool :=
  let textNoEmoji := st.1
  let prevSpace := st.2
  let chr := String.singleton r
  if inStringStringMap sia.EmojiDict chr then
    let description := (sia.EmojiDict chr).getD ""
    let textNoEmoji := if !prevSpace then textNoEmoji ++ " " else textNoEmoji
    (textNoEmoji ++ description, false)
  else
    (textNoEmoji ++ chr, if chr = " " then true else false)

/-- Lines 72-90 of `PolarityScores`: the emoji loop over the code points of
the text, from the state `st`. -/
def emojiLoop (sia : SentimentIntensityAnalyzer K) (runes : List Char) (st : String × Bool) :
    String × Bool :=
  runes.foldl (emojiStep sia) st

/-- Lines 72-90 of `PolarityScores`: the emoji-substituted text
`textNoEmoji`, before trimming. -/
def emojiPass (sia : SentimentIntensityAnalyzer K) (text : String) : String :=
  (emojiLoop sia text.toList ("", true)).1

/-- Lines 72-91 of `PolarityScores`: the text handed to tokenization.  The
library function `strings.TrimSpace` is the parameter `TrimSpace`. -/
def prepareText (TrimSpace : String → String) (sia : SentimentIntensityAnalyzer K)
    (text : String) : String :=
  TrimSpace (emojiPass sia text)

/-- The method `PolarityScores` of `sentiment_analyzer.go` (lines 71-116).
The library functions `strings.TrimSpace` and `math.Sqrt` and the package
functions `NewSentiText`, `butCheck` and `punctuationEmphasis`, whose bodies
are not in the analysed sources, are parameters. -/
def PolarityScores (TrimSpace : String → String) (NewSentiText : String → SentiText)
    (butCheck : List String → List K → List K) (sqrt : K → K)
    (punctuationEmphasis : String → K) (hp : Helpers K)
    (sia : SentimentIntensityAnalyzer K) (text : String) : Option (Sentiment K) :=
  let text := prepareText TrimSpace sia text
  let sentitext := NewSentiText text
  (scoringLoop hp sia sentitext).map fun sentiments =>
    let sentiments := butCheck sentitext.WordsAndEmoticonsLower sentiments
    ScoreValence sqrt punctuationEmphasis sentiments text

/-- A list of characters without two consecutive spaces. -/
def NoDoubleSpace (l : List Char) : Prop :=
  l.Chain' fun a b => ¬ (a = ' ' ∧ b = ' ')

/-- A description that can stand next to a separator: non-empty, with no
leading, trailing or doubled space. -/
def CleanDescription (d : String) : Prop :=
  d.toList ≠ [] ∧ d.toList.head? ≠ some ' ' ∧ d.toList.getLast? ≠ some ' ' ∧
    NoDoubleSpace d.toList

/-- An emoji mapping for concrete evaluations: the one-code-point key U+1F601
and the two-code-point key U+2764 U+FE0F. -/
def sampleEmojiDict : String → Option String := fun k =>
  if k = "\u2764\uFE0F" then some "red heart"
  else if k = String.singleton (Char.ofNat 0x1F601) then some "beaming face"
  else none

/-- The analyzer for concrete evaluations with the emoji mapping
`sampleEmojiDict`. -/
def sampleEmojiAnalyzer : SentimentIntensityAnalyzer ℚ where
  Lexicon := sampleLexicon
  EmojiDict := sampleEmojiDict
  Constants := sampleConstants

end TextPreparation

/-! ## Variants following the specification -/

section Variants

variable {K : Type} [LinearOrderedField K]

/-- The function `leastCheck` with its else-if branch (lines 188-192)
removed. -/
def leastCheckSingle (sia : SentimentIntensityAnalyzer K) (valence : K)
    (wordsAndEmoticonsLower : List String) (i : Int) : Option K :=
  let newValence := valence
  (leastCond sia wordsAndEmoticonsLower i).bind fun c1 =>
    if c1 then
      (idx wordsAndEmoticonsLower (i - 2)).bind fun w2 =>
        if w2 ≠ "at" ∧ w2 ≠ "very" then some (newValence * nSCALAR)
        else some newValence
    else some newValence

/-- The variant of `lookBack` that the specification describes: the test "is
not itself a lexicon word" reads the preceding token from the lower-cased
view. -/
def lookBackLower (hp : Helpers K) (sia : SentimentIntensityAnalyzer K) (sit : SentiText)
    (i : Int) (newValence : K) (startI : Int) : Option K :=
  if i > startI then
    (idx sit.WordsAndEmoticonsLower (i - (startI + 1))).bind fun wlow =>
      if !inStringMap sia.Lexicon wlow then
        (idx sit.WordsAndEmoticons (i - (startI + 1))).bind fun w =>
          let s := sia.Constants.scalarIncDec w wlow newValence sit.IsCapDiff
          let s := if startI = 1 ∧ s ≠ 0 then s * (95 / 100) else s
          let s := if startI = 2 ∧ s ≠ 0 then s * (9 / 10) else s
          let newValence := newValence + s
          let newValence :=
            hp.negationCheck newValence sit.WordsAndEmoticonsLower startI i
              sia.Constants.NegateList
          let newValence :=
            if startI = 2 then
              sia.Constants.specialIdiomsCheck newValence sit.WordsAndEmoticonsLower i
                sia.Constants.BoosterDict
            else newValence
          some newValence
      else some newValence
  else some newValence

/-- The variant of `tokenValence` that the specification describes: the
look-back window and the "least" check read the preceding tokens from the
lower-cased view. -/
def tokenValenceLower (hp : Helpers K) (sia : SentimentIntensityAnalyzer K) (valence : K)
    (sit : SentiText) (item : String) (i : Int) : Option K :=
  let isCapDiff := sit.IsCapDiff
  let wordsAndEmoticonsLower := sit.WordsAndEmoticonsLower
  let itemLower := hp.ToLower item
  if inStringMap sia.Lexicon itemLower then
    let newValence := mapGet sia.Lexicon itemLower
    (if itemLower = "no" then
        (idx wordsAndEmoticonsLower (i + 1)).map fun next =>
          if inStringMap sia.Lexicon next then 0 else newValence
      else some newValence).bind fun newValence =>
    (noBefore wordsAndEmoticonsLower i).bind fun c =>
    let newValence := if c then mapGet sia.Lexicon itemLower * nSCALAR else newValence
    let newValence :=
      if sia.Constants.stringIsUpper item && isCapDiff then
        if newValence > 0 then newValence + cINCR else newValence - cINCR
      else newValence
    ([0, 1, 2].foldlM (lookBackLower hp sia sit i) newValence).bind fun newValence =>
    leastCheck sia newValence wordsAndEmoticonsLower i
  else some valence

/-- The variant of `SentimentValence` that the specification describes, built
on `tokenValenceLower`. -/
def SentimentValenceLower (hp : Helpers K) (sia : SentimentIntensityAnalyzer K) (valence : K)
    (sit : SentiText) (item : String) (i : Int) (sentiments : List K) : Option (List K) :=
  let outSentiments := copySlice sentiments
  (tokenValenceLower hp sia valence sit item i).map fun newValence =>
    outSentiments ++ [newValence]

end Variants

/-! ## Aggregator: theorems -/

section AggregatorTheorems

variable {K : Type} [LinearOrderedField K]

theorem sift_pos_nonneg (sentiments : List K) : 0 ≤ (siftSentimentScores sentiments).1 := by
  unfold siftSentimentScores
  apply List.sum_nonneg
  intro x hx
  have h := (List.mem_filter.mp hx).2
  exact le_of_lt (by simpa using h)

theorem sift_neg_nonpos (sentiments : List K) : (siftSentimentScores sentiments).2.1 ≤ 0 := by
  unfold siftSentimentScores
  induction sentiments with
  | nil => simp
  | cons a t ih =>
    by_cases h : a < 0
    · simp only [List.filter_cons, h, decide_True, if_true, List.sum_cons]
      simp only at ih
      linarith
    · simpa [List.filter_cons, h] using ih

theorem sift_mass_pos (sentiments : List K) (hne : sentiments ≠ []) :
    0 < (siftSentimentScores sentiments).1 + |(siftSentimentScores sentiments).2.1|
          + ((siftSentimentScores sentiments).2.2 : K) := by
  rw [abs_of_nonpos (sift_neg_nonpos sentiments)]
  cases sentiments with
  | nil => exact absurd rfl hne
  | cons a t =>
    have hpt := sift_pos_nonneg t
    have hnt := sift_neg_nonpos t
    have hct : (0 : K) ≤ ((siftSentimentScores t).2.2 : K) := Nat.cast_nonneg _
    unfold siftSentimentScores at hpt hnt hct ⊢
    simp only at hpt hnt hct ⊢
    rcases lt_trichotomy a 0 with h | h | h
    · have h1 : ¬ (0 < a) := not_lt.mpr (le_of_lt h)
      have h2 : a ≠ 0 := ne_of_lt h
      simp only [List.filter_cons, h, h1, h2, decide_True, decide_False, if_true, if_false, Bool.false_eq_true,
        List.sum_cons]
      linarith
    · subst h
      simp only [List.filter_cons, lt_irrefl, decide_True, decide_False, if_true, if_false, Bool.false_eq_true,
        List.length_cons, Nat.cast_succ]
      linarith
    · have h1 : ¬ (a < 0) := not_lt.mpr (le_of_lt h)
      have h2 : a ≠ 0 := ne_of_gt h
      simp only [List.filter_cons, h, h1, h2, decide_True, decide_False, if_true, if_false, Bool.false_eq_true,
        List.sum_cons]
      linarith

theorem sums_spec (amp : String → K) (sentiments : List K) (text : String)
    (hamp : 0 ≤ amp text) :
    0 ≤ (ScoreValence.sums amp sentiments text).1 ∧
    (ScoreValence.sums amp sentiments text).2.1 ≤ 0 ∧
    (sentiments ≠ [] → 0 < ScoreValence.total amp sentiments text) := by
  have hp := sift_pos_nonneg sentiments
  have hn := sift_neg_nonpos sentiments
  have hm := sift_mass_pos sentiments
  unfold ScoreValence.total ScoreValence.sums
  simp only
  rw [abs_of_nonpos hn] at hm ⊢
  split_ifs with h1 h2
  · refine ⟨by simp only; linarith, by simpa using hn, fun hne => ?_⟩
    have := hm hne
    simp only [abs_of_nonpos hn]
    linarith
  · have hn2 : (siftSentimentScores sentiments).2.1 - amp text ≤ 0 := by linarith
    refine ⟨by simpa using hp, by simpa using hn2, fun hne => ?_⟩
    have := hm hne
    simp only [abs_of_nonpos hn2]
    linarith
  · refine ⟨by simpa using hp, by simpa using hn, fun hne => ?_⟩
    have := hm hne
    simp only [abs_of_nonpos hn]
    linarith

/-- C1: for every non-empty valence sequence and every text whose punctuation
amplifier is non-negative, the divisor `total` of `ScoreValence` is strictly
positive, the returned Negative, Neutral and Positive each lie in [0, 1], and
they sum to exactly 1.  (That the sifted positive sum is >= 0 and the sifted
negative sum is <= 0 holds for every sequence: `sift_pos_nonneg`,
`sift_neg_nonpos`.) -/
theorem ScoreValence_proportions (sqrt : K → K) (amp : String → K)
    (sentiments : List K) (text : String)
    (hne : sentiments ≠ []) (hamp : 0 ≤ amp text) :
    0 < ScoreValence.total amp sentiments text ∧
    0 ≤ (ScoreValence sqrt amp sentiments text).Negative ∧
    (ScoreValence sqrt amp sentiments text).Negative ≤ 1 ∧
    0 ≤ (ScoreValence sqrt amp sentiments text).Neutral ∧
    (ScoreValence sqrt amp sentiments text).Neutral ≤ 1 ∧
    0 ≤ (ScoreValence sqrt amp sentiments text).Positive ∧
    (ScoreValence sqrt amp sentiments text).Positive ≤ 1 ∧
    (ScoreValence sqrt amp sentiments text).Negative
      + (ScoreValence sqrt amp sentiments text).Neutral
      + (ScoreValence sqrt amp sentiments text).Positive = 1 := by
  obtain ⟨hP, hN, hT⟩ := sums_spec amp sentiments text hamp
  have hT := hT hne
  have hlen : sentiments.length > 0 := List.length_pos.mpr hne
  have hc : (0 : K) ≤ ((ScoreValence.sums amp sentiments text).2.2 : K) := Nat.cast_nonneg _
  have hTdef : ScoreValence.total amp sentiments text
      = (ScoreValence.sums amp sentiments text).1
        + -(ScoreValence.sums amp sentiments text).2.1
        + ((ScoreValence.sums amp sentiments text).2.2 : K) := by
    unfold ScoreValence.total
    simp only [abs_of_nonpos hN]
  simp only [ScoreValence, hlen, if_true]
  generalize ScoreValence.total amp sentiments text = T at hT hTdef ⊢
  generalize (ScoreValence.sums amp sentiments text).1 = P at hP hTdef ⊢
  generalize (ScoreValence.sums amp sentiments text).2.1 = N at hN hTdef ⊢
  generalize ((ScoreValence.sums amp sentiments text).2.2 : K) = n at hc hTdef ⊢
  have e1 : |P / T| = P / T := abs_of_nonneg (div_nonneg hP hT.le)
  have e2 : |N / T| = -N / T := by
    rw [abs_of_nonpos (div_nonpos_of_nonpos_of_nonneg hN hT.le), neg_div]
  have e3 : |n / T| = n / T := abs_of_nonneg (div_nonneg hc hT.le)
  rw [e1, e2, e3]
  have hN' : 0 ≤ -N := by linarith
  refine ⟨hT, div_nonneg hN' hT.le, ?_, div_nonneg hc hT.le, ?_, div_nonneg hP hT.le, ?_, ?_⟩
  · rw [div_le_one hT]; linarith
  · rw [div_le_one hT]; linarith
  · rw [div_le_one hT]; linarith
  · rw [← add_div, ← add_div, div_eq_one_iff_eq hT.ne']
    rw [hTdef]; ring

/-! ### The squashing function -/

theorem sqrt_arg_pos (x : K) : 0 < x * x + 15 := by
  have := mul_self_nonneg x
  linarith

theorem sqrt_pos_of_isSqrt {sqrt : K → K} (hs : IsSqrt sqrt) (x : K) :
    0 < sqrt (x * x + 15) := by
  obtain ⟨h0, h1⟩ := hs (x * x + 15) (sqrt_arg_pos x).le
  rcases h0.lt_or_eq with h | h
  · exact h
  · have := sqrt_arg_pos x
    rw [← h1, ← h] at this
    simp at this

theorem abs_lt_sqrt {sqrt : K → K} (hs : IsSqrt sqrt) (x : K) :
    |x| < sqrt (x * x + 15) := by
  obtain ⟨h0, h1⟩ := hs (x * x + 15) (sqrt_arg_pos x).le
  apply lt_of_not_le
  intro hle
  have h2 := mul_self_le_mul_self h0 hle
  rw [h1, abs_mul_abs_self] at h2
  linarith

theorem normalizeDefault_bounds {sqrt : K → K} (hs : IsSqrt sqrt) (x : K) :
    -1 < normalizeDefault sqrt x ∧ normalizeDefault sqrt x < 1 := by
  have hr := sqrt_pos_of_isSqrt hs x
  have ha := abs_lt.mp (abs_lt_sqrt hs x)
  unfold normalizeDefault normalize
  constructor
  · rw [lt_div_iff₀ hr]; linarith [ha.1]
  · rw [div_lt_one hr]; exact ha.2

theorem normalizeDefault_zero (sqrt : K → K) : normalizeDefault sqrt 0 = 0 := by
  simp [normalizeDefault, normalize]

theorem normalizeDefault_pos {sqrt : K → K} (hs : IsSqrt sqrt) {x : K} (hx : 0 < x) :
    0 < normalizeDefault sqrt x :=
  div_pos hx (sqrt_pos_of_isSqrt hs x)

theorem normalizeDefault_neg {sqrt : K → K} (hs : IsSqrt sqrt) {x : K} (hx : x < 0) :
    normalizeDefault sqrt x < 0 :=
  div_neg_of_neg_of_pos hx (sqrt_pos_of_isSqrt hs x)

theorem normalizeDefault_mono {sqrt : K → K} (hs : IsSqrt sqrt) {a b : K} (hab : a ≤ b) :
    normalizeDefault sqrt a ≤ normalizeDefault sqrt b := by
  have hra := sqrt_pos_of_isSqrt hs a
  have hrb := sqrt_pos_of_isSqrt hs b
  have ea := (hs (a * a + 15) (sqrt_arg_pos a).le).2
  have eb := (hs (b * b + 15) (sqrt_arg_pos b).le).2
  unfold normalizeDefault normalize
  rw [div_le_div_iff₀ hra hrb]
  generalize sqrt (a * a + 15) = ra at hra ea
  generalize sqrt (b * b + 15) = rb at hrb eb
  rcases le_total 0 a with h0 | h0
  · -- 0 ≤ a ≤ b
    have hb : 0 ≤ b := le_trans h0 hab
    rw [mul_self_le_mul_self_iff (mul_nonneg h0 hrb.le) (mul_nonneg hb hra.le)]
    have e1 : a * rb * (a * rb) = a * a * (b * b + 15) := by rw [← eb]; ring
    have e2 : b * ra * (b * ra) = b * b * (a * a + 15) := by rw [← ea]; ring
    rw [e1, e2]
    have := mul_self_le_mul_self h0 hab
    linarith
  · rcases le_total 0 b with hb | hb
    · -- a ≤ 0 ≤ b
      have h1 : a * rb ≤ 0 := mul_nonpos_of_nonpos_of_nonneg h0 hrb.le
      have h2 : 0 ≤ b * ra := mul_nonneg hb hra.le
      linarith
    · -- a ≤ b ≤ 0
      have hna : 0 ≤ -a := by linarith
      have hnb : 0 ≤ -b := by linarith
      have key : (-b) * ra ≤ (-a) * rb := by
        rw [mul_self_le_mul_self_iff (mul_nonneg hnb hra.le) (mul_nonneg hna hrb.le)]
        have e1 : -a * rb * (-a * rb) = a * a * (b * b + 15) := by rw [← eb]; ring
        have e2 : -b * ra * (-b * ra) = b * b * (a * a + 15) := by rw [← ea]; ring
        rw [e1, e2]
        have := mul_self_le_mul_self hnb (by linarith : -b ≤ -a)
        have e3 : -b * -b = b * b := by ring
        have e4 : -a * -a = a * a := by ring
        rw [e3, e4] at this
        linarith
      linarith

theorem ScoreValence_compound (sqrt : K → K) (amp : String → K)
    (sentiments : List K) (text : String) :
    (ScoreValence sqrt amp sentiments text).Compound
      = if sentiments = [] then 0
        else normalizeDefault sqrt (ScoreValence.sumS amp sentiments text) := by
  cases sentiments with
  | nil => simp [ScoreValence, Sentiment.zero]
  | cons a t => simp [ScoreValence]

/-- C2: for every valence sequence and every text, the Compound field returned
by `ScoreValence` lies in [-1, 1], the normalisation being
`sumS / sqrt(sumS^2 + 15)` applied to the amplifier-adjusted sum, for a square
root that satisfies its contract. -/
theorem ScoreValence_compound_range (sqrt : K → K) (hs : IsSqrt sqrt) (amp : String → K)
    (sentiments : List K) (text : String) :
    -1 ≤ (ScoreValence sqrt amp sentiments text).Compound ∧
    (ScoreValence sqrt amp sentiments text).Compound ≤ 1 := by
  rw [ScoreValence_compound]
  split_ifs with h
  · constructor <;> norm_num
  · have := normalizeDefault_bounds hs (ScoreValence.sumS amp sentiments text)
    exact ⟨this.1.le, this.2.le⟩

/-- C6: for every valence sequence and every text whose punctuation amplifier
is non-negative, the Compound returned by `ScoreValence` has the sign of the
raw sum of the valences, is 0 exactly when that sum is 0, and its magnitude is
at least that of the normalised raw sum. -/
theorem ScoreValence_compound_sign (sqrt : K → K) (hs : IsSqrt sqrt) (amp : String → K)
    (sentiments : List K) (text : String) (hamp : 0 ≤ amp text) :
    (0 < sentiments.sum → 0 < (ScoreValence sqrt amp sentiments text).Compound) ∧
    (sentiments.sum < 0 → (ScoreValence sqrt amp sentiments text).Compound < 0) ∧
    ((ScoreValence sqrt amp sentiments text).Compound = 0 ↔ sentiments.sum = 0) ∧
    |normalizeDefault sqrt sentiments.sum|
      ≤ |(ScoreValence sqrt amp sentiments text).Compound| := by
  rw [ScoreValence_compound]
  by_cases hnil : sentiments = []
  · subst hnil
    simp [normalizeDefault_zero]
  · simp only [hnil, if_false]
    unfold ScoreValence.sumS
    simp only
    rcases lt_trichotomy sentiments.sum 0 with h | h | h
    · have hn : ¬ (sentiments.sum > 0) := not_lt.mpr h.le
      simp only [hn, h, if_true, if_false]
      have h1 : sentiments.sum - amp text < 0 := by linarith
      have c1 := normalizeDefault_neg hs h1
      have c0 := normalizeDefault_neg hs h
      have cm := normalizeDefault_mono hs (by linarith : sentiments.sum - amp text ≤ sentiments.sum)
      refine ⟨fun h' => h'.elim, fun _ => c1, ?_, ?_⟩
      · constructor
        · intro e; rw [e] at c1; exact absurd c1 (lt_irrefl _)
        · intro e; rw [e] at h; exact absurd h (lt_irrefl _)
      · rw [abs_of_neg c0, abs_of_neg c1]; linarith
    · simp only [h, lt_irrefl, gt_iff_lt, if_false, normalizeDefault_zero, abs_zero, le_refl,
        and_true, true_and, false_imp_iff]
    · have hn : ¬ (sentiments.sum < 0) := not_lt.mpr h.le
      simp only [gt_iff_lt, h, if_true]
      have h1 : 0 < sentiments.sum + amp text := by linarith
      have c1 := normalizeDefault_pos hs h1
      have c0 := normalizeDefault_pos hs h
      have cm := normalizeDefault_mono hs (by linarith : sentiments.sum ≤ sentiments.sum + amp text)
      refine ⟨fun _ => c1, fun h' => absurd h' hn, ?_, ?_⟩
      · constructor
        · intro e; rw [e] at c1; exact absurd c1 (lt_irrefl _)
        · intro e; rw [e] at h; exact absurd h (lt_irrefl _)
      · rw [abs_of_pos c0, abs_of_pos c1]; exact cm

/-- C5: on the empty valence sequence `ScoreValence` returns the `Sentiment`
whose four fields are all exactly 0, for every text; no division is
performed on that path. -/
theorem ScoreValence_nil (sqrt : K → K) (punctuationEmphasis : String → K) (text : String) :
    ScoreValence sqrt punctuationEmphasis [] text
      = { Negative := 0, Neutral := 0, Positive := 0, Compound := 0 } := by
  simp [ScoreValence, Sentiment.zero]

theorem amplifyEP_nonneg (text : String) : (0 : K) ≤ amplifyEP text := by
  unfold amplifyEP
  positivity

theorem isSqrt_real : IsSqrt Real.sqrt :=
  fun x hx => ⟨Real.sqrt_nonneg x, Real.mul_self_sqrt hx⟩

/-- Witness of C1: the sequence [1, -2, 0] with the text "wow!". -/
theorem ScoreValence_proportions_witness :
    ([1, -2, 0] : List ℚ) ≠ [] ∧ (0 : ℚ) ≤ amplifyEP "wow!" ∧
    (ScoreValence (fun x => x) amplifyEP ([1, -2, 0] : List ℚ) "wow!").Negative
      + (ScoreValence (fun x => x) amplifyEP ([1, -2, 0] : List ℚ) "wow!").Neutral
      + (ScoreValence (fun x => x) amplifyEP ([1, -2, 0] : List ℚ) "wow!").Positive = 1 :=
  ⟨by simp, amplifyEP_nonneg _,
   (ScoreValence_proportions (fun x => x) amplifyEP ([1, -2, 0] : List ℚ) "wow!"
      (by simp) (amplifyEP_nonneg _)).2.2.2.2.2.2.2⟩

/-- Witness of C2: the real square root, the sequence [2] and the text "!". -/
theorem ScoreValence_compound_range_witness :
    IsSqrt Real.sqrt ∧
    -1 ≤ (ScoreValence Real.sqrt amplifyEP ([2] : List ℝ) "!").Compound ∧
    (ScoreValence Real.sqrt amplifyEP ([2] : List ℝ) "!").Compound ≤ 1 :=
  ⟨isSqrt_real, ScoreValence_compound_range Real.sqrt isSqrt_real amplifyEP [2] "!"⟩

/-- Witness of C6: the real square root, the sequence [2, -3] and the text
"!!": the raw sum is negative and so is Compound. -/
theorem ScoreValence_compound_sign_witness :
    IsSqrt Real.sqrt ∧ (0 : ℝ) ≤ amplifyEP "!!" ∧ ([2, -3] : List ℝ).sum < 0 ∧
    (ScoreValence Real.sqrt amplifyEP ([2, -3] : List ℝ) "!!").Compound < 0 :=
  ⟨isSqrt_real, amplifyEP_nonneg _, by norm_num,
   (ScoreValence_compound_sign Real.sqrt isSqrt_real amplifyEP [2, -3] "!!"
      (amplifyEP_nonneg _)).2.1 (by norm_num)⟩

/-- C7, as amended: when the sifted positive sum equals the magnitude of the
sifted negative sum (a tie), `ScoreValence` applies the punctuation amplifier
to neither sum, and the returned Negative equals the returned Positive. -/
theorem ScoreValence_tie (sqrt : K → K) (amp : String → K)
    (sentiments : List K) (text : String)
    (htie : (siftSentimentScores sentiments).1 = |(siftSentimentScores sentiments).2.1|) :
    ScoreValence.sums amp sentiments text = siftSentimentScores sentiments ∧
    (ScoreValence sqrt amp sentiments text).Negative
      = (ScoreValence sqrt amp sentiments text).Positive := by
  have hs : ScoreValence.sums amp sentiments text = siftSentimentScores sentiments := by
    have h1 : ¬ ((siftSentimentScores sentiments).1 > |(siftSentimentScores sentiments).2.1|) :=
      not_lt.mpr htie.le
    have h2 : ¬ ((siftSentimentScores sentiments).1 < |(siftSentimentScores sentiments).2.1|) :=
      not_lt.mpr htie.ge
    unfold ScoreValence.sums
    simp only [h1, h2, if_false]
  refine ⟨hs, ?_⟩
  unfold ScoreValence
  split_ifs
  · simp only [hs, abs_div, htie, abs_abs]
  · rfl

theorem sift_one_negOne : siftSentimentScores ([1, -1] : List ℚ) = (1, -1, 0) := by
  norm_num [siftSentimentScores, List.filter_cons]

theorem count_bang : ("!".toList.count '!') = 1 := by decide

theorem amplifyEP_bang : (amplifyEP "!" : ℚ) = 292 / 1000 := by
  simp [amplifyEP, count_bang]

theorem ScoreValence_one_negOne :
    (ScoreValence (fun x => x) amplifyEP ([1, -1] : List ℚ) "!").Negative = 1 / 2 ∧
    (ScoreValence (fun x => x) amplifyEP ([1, -1] : List ℚ) "!").Positive = 1 / 2 := by
  simp only [ScoreValence, ScoreValence.total, ScoreValence.sums, sift_one_negOne]
  norm_num

/-- Counterexample to C7 as stated: for the valences [1, -1] (a tie) and the
text "!", whose amplifier is non-zero, the returned Negative is not greater
than the returned Positive: both are 1/2. -/
theorem ScoreValence_tie_counterexample :
    (siftSentimentScores ([1, -1] : List ℚ)).1 = |(siftSentimentScores ([1, -1] : List ℚ)).2.1| ∧
    (amplifyEP "!" : ℚ) ≠ 0 ∧
    (ScoreValence (fun x => x) amplifyEP ([1, -1] : List ℚ) "!").Negative = 1 / 2 ∧
    (ScoreValence (fun x => x) amplifyEP ([1, -1] : List ℚ) "!").Positive = 1 / 2 ∧
    ¬ ((ScoreValence (fun x => x) amplifyEP ([1, -1] : List ℚ) "!").Negative
        > (ScoreValence (fun x => x) amplifyEP ([1, -1] : List ℚ) "!").Positive) := by
  refine ⟨by rw [sift_one_negOne]; norm_num, by rw [amplifyEP_bang]; norm_num,
    ScoreValence_one_negOne.1, ScoreValence_one_negOne.2, ?_⟩
  rw [ScoreValence_one_negOne.1, ScoreValence_one_negOne.2]
  exact lt_irrefl _

/-- Witness of C7 as amended: the valences [1, -1] with the text "!". -/
theorem ScoreValence_tie_witness :
    (siftSentimentScores ([1, -1] : List ℚ)).1 = |(siftSentimentScores ([1, -1] : List ℚ)).2.1| ∧
    (ScoreValence (fun x => x) amplifyEP ([1, -1] : List ℚ) "!").Negative
      = (ScoreValence (fun x => x) amplifyEP ([1, -1] : List ℚ) "!").Positive :=
  ⟨by rw [sift_one_negOne]; norm_num,
   (ScoreValence_tie (fun x => x) amplifyEP ([1, -1] : List ℚ) "!"
      (by rw [sift_one_negOne]; norm_num)).2⟩

end AggregatorTheorems

/-! ## Per-token valence scorer: theorems -/

section ScorerTheorems

variable {K : Type} [LinearOrderedField K]

theorem idx_natCast {α : Type} (xs : List α) (n : Nat) : idx xs (n : Int) = xs[n]? := by
  simp [idx]

theorem idx_natCast_succ {α : Type} (xs : List α) (n : Nat) :
    idx xs ((n : Int) + 1) = xs[n + 1]? := by
  have h : ((n : Int) + 1) = ((n + 1 : Nat) : Int) := by push_cast; rfl
  rw [h, idx_natCast]

theorem idx_of_neg {α : Type} (xs : List α) (j : Int) (hj : j < 0) : idx xs j = none := by
  simp [idx, hj]

theorem idx_of_length_le {α : Type} (xs : List α) (j : Int) (hj : (xs.length : Int) ≤ j) :
    idx xs j = none := by
  unfold idx
  split_ifs with h
  · rfl
  · apply List.getElem?_eq_none
    omega

/-! ### The look-ahead of the local negation rule -/

/-- C3 (the code departs from the claim): when token `i` lower-cases to "no",
"no" is a lexicon word and there is no token after `i`, `SentimentValence`
evaluates `wordsAndEmoticonsLower[i+1]` and fails with an out-of-range access
instead of applying no adjustment. -/
theorem SentimentValence_no_last (hp : Helpers K) (sia : SentimentIntensityAnalyzer K)
    (valence : K) (sit : SentiText) (item : String) (i : Int) (sentiments : List K)
    (hlow : hp.ToLower item = "no") (hlex : inStringMap sia.Lexicon "no" = true)
    (hlast : (sit.WordsAndEmoticonsLower.length : Int) ≤ i + 1) :
    SentimentValence hp sia valence sit item i sentiments = none := by
  simp [SentimentValence, tokenValence, hlow, hlex, idx_of_length_le _ _ hlast]

/-- Witness of C3: the one-token text "no" scored at index 0. -/
theorem SentimentValence_no_last_witness :
    sampleHelpers.ToLower "no" = "no" ∧ inStringMap sampleAnalyzer.Lexicon "no" = true ∧
    SentimentValence sampleHelpers sampleAnalyzer 0
      { WordsAndEmoticons := ["no"], WordsAndEmoticonsLower := ["no"], IsCapDiff := false }
      "no" 0 [] = none :=
  ⟨by decide, by decide,
   SentimentValence_no_last sampleHelpers sampleAnalyzer 0
      { WordsAndEmoticons := ["no"], WordsAndEmoticonsLower := ["no"], IsCapDiff := false }
      "no" 0 [] (by decide) (by decide) (by decide)⟩

/-! ### The "least" rule -/

/-- C4 (the code departs from the claim): at `i = 1`, when the first token is
"least" and "least" is not a lexicon word, `leastCheck` evaluates
`wordsAndEmoticonsLower[i-2]`, that is index -1, and fails with an out-of-range
access instead of returning the valence multiplied by the negation scalar. -/
theorem leastCheck_first_least (sia : SentimentIntensityAnalyzer K) (valence : K)
    (wordsAndEmoticonsLower : List String)
    (h0 : idx wordsAndEmoticonsLower 0 = some "least")
    (hlex : inStringMap sia.Lexicon "least" = false) :
    leastCheck sia valence wordsAndEmoticonsLower 1 = none := by
  simp [leastCheck, leastCond, h0, hlex, idx_of_neg]

/-- Witness of C4: the tokens "least", "good" at index 1. -/
theorem leastCheck_first_least_witness :
    idx ["least", "good"] 0 = some "least" ∧
    inStringMap sampleAnalyzer.Lexicon "least" = false ∧
    leastCheck sampleAnalyzer (19 / 10) ["least", "good"] 1 = none :=
  ⟨by decide, by decide,
   leastCheck_first_least sampleAnalyzer (19 / 10) ["least", "good"] (by decide) (by decide)⟩

theorem leastCheck_of_two_le (sia : SentimentIntensityAnalyzer K) (valence : K)
    (wordsAndEmoticonsLower : List String) (i : Int) (w2 : String) (hi : 2 ≤ i)
    (h1 : idx wordsAndEmoticonsLower (i - 1) = some "least")
    (h2 : idx wordsAndEmoticonsLower (i - 2) = some w2)
    (hlex : inStringMap sia.Lexicon "least" = false) :
    leastCheck sia valence wordsAndEmoticonsLower i
      = some (if w2 = "at" ∨ w2 = "very" then valence else valence * nSCALAR) := by
  have hpos : i > 0 := by omega
  simp only [leastCheck, leastCond, hpos, if_true, h1, h2, hlex, Option.some_bind,
    Bool.not_false, decide_True]
  by_cases ha : w2 = "at"
  · simp [ha]
  · by_cases hv : w2 = "very"
    · simp [hv]
    · simp [ha, hv]

/-! ### Frame of `SentimentValence` and alignment of the scoring loop -/

theorem copySlice_aux (l : List K) : ∀ (pre : List K),
    (l.enumFrom pre.length).foldl (fun out p => out.set p.1 p.2)
      (pre ++ List.replicate l.length 0) = pre ++ l := by
  induction l with
  | nil => intro pre; simp
  | cons a t ih =>
    intro pre
    have h := ih (pre ++ [a])
    simp only [List.length_append, List.length_singleton, List.append_assoc,
      List.singleton_append] at h
    simp only [List.enumFrom_cons, List.foldl_cons, List.length_cons, List.replicate_succ]
    rw [List.set_append_right _ _ (le_refl _)]
    simpa using h

theorem copySlice_eq (l : List K) : copySlice l = l := by
  have := copySlice_aux l []
  simpa [copySlice, List.enum] using this

theorem SentimentValence_eq (hp : Helpers K) (sia : SentimentIntensityAnalyzer K)
    (valence : K) (sit : SentiText) (item : String) (i : Int) (sentiments : List K) :
    SentimentValence hp sia valence sit item i sentiments
      = (tokenValence hp sia valence sit item i).map fun v => sentiments ++ [v] := by
  simp [SentimentValence, copySlice_eq]

theorem SentimentValence_some (hp : Helpers K) (sia : SentimentIntensityAnalyzer K)
    (valence : K) (sit : SentiText) (item : String) (i : Int) (sentiments out : List K)
    (h : SentimentValence hp sia valence sit item i sentiments = some out) :
    ∃ v, tokenValence hp sia valence sit item i = some v ∧ out = sentiments ++ [v] := by
  rw [SentimentValence_eq] at h
  obtain ⟨v, hv, e⟩ := Option.map_eq_some'.mp h
  exact ⟨v, hv, e.symm⟩

theorem scoreToken_some (hp : Helpers K) (sia : SentimentIntensityAnalyzer K) (sit : SentiText)
    (sentiments out : List K) (i : Nat) (item : String)
    (h : scoreToken hp sia sit sentiments i item = some out) :
    ∃ v, out = sentiments ++ [v] := by
  unfold scoreToken at h
  cases hl : idx sit.WordsAndEmoticonsLower (i : Int) with
  | none => simp [hl] at h
  | some itemLower =>
    simp only [hl, Option.some_bind] at h
    split_ifs at h with h1 h2
    · exact ⟨0, (Option.some.inj h).symm⟩
    · cases hn : idx sit.WordsAndEmoticonsLower ((i : Int) + 1) with
      | none => simp [hn] at h
      | some next =>
        simp only [hn, Option.some_bind] at h
        split_ifs at h with h3
        · exact ⟨0, (Option.some.inj h).symm⟩
        · obtain ⟨v, _, e⟩ := SentimentValence_some _ _ _ _ _ _ _ _ h
          exact ⟨v, e⟩
    · obtain ⟨v, _, e⟩ := SentimentValence_some _ _ _ _ _ _ _ _ h
      exact ⟨v, e⟩

theorem scoreFrom_spec (hp : Helpers K) (sia : SentimentIntensityAnalyzer K) (sit : SentiText) :
    ∀ (items : List String) (i : Nat) (acc vs : List K),
      scoreFrom hp sia sit items i acc = some vs →
      ∃ tail, vs = acc ++ tail ∧ tail.length = items.length ∧
        ∀ (j : Nat) (item : String), items[j]? = some item →
          scoreToken hp sia sit (acc ++ tail.take j) (i + j) item
            = some (acc ++ tail.take (j + 1)) := by
  intro items
  induction items with
  | nil =>
    intro i acc vs h
    simp only [scoreFrom, Option.some.injEq] at h
    exact ⟨[], by simp [h], rfl, by simp⟩
  | cons item rest ih =>
    intro i acc vs h
    simp only [scoreFrom] at h
    cases hst : scoreToken hp sia sit acc i item with
    | none => simp [hst] at h
    | some acc1 =>
      simp only [hst, Option.some_bind] at h
      obtain ⟨v, hv⟩ := scoreToken_some hp sia sit acc acc1 i item hst
      obtain ⟨tail, e, hlen, hstep⟩ := ih (i + 1) acc1 vs h
      refine ⟨v :: tail, by rw [e, hv]; simp, by simp [hlen], ?_⟩
      intro j it hj
      cases j with
      | zero =>
        simp only [List.getElem?_cons_zero, Option.some.injEq] at hj
        subst hj
        simpa [hv] using hst
      | succ j =>
        simp only [List.getElem?_cons_succ] at hj
        have := hstep j it hj
        rw [hv] at this
        have e1 : i + 1 + j = i + (j + 1) := by omega
        rw [e1] at this
        simpa using this

theorem scoringLoop_spec (hp : Helpers K) (sia : SentimentIntensityAnalyzer K) (sit : SentiText)
    (vs : List K) (h : scoringLoop hp sia sit = some vs) :
    vs.length = sit.WordsAndEmoticons.length ∧
    ∀ (i : Nat) (item : String), sit.WordsAndEmoticons[i]? = some item →
      scoreToken hp sia sit (vs.take i) i item = some (vs.take (i + 1)) := by
  obtain ⟨tail, e, hlen, hstep⟩ := scoreFrom_spec hp sia sit _ 0 [] vs h
  simp only [List.nil_append] at e
  subst e
  refine ⟨hlen, fun i item hi => ?_⟩
  simpa using hstep i item hi

/-- C10: every call of `SentimentValence` that returns yields a sequence of
length `len(sentiments) + 1` whose first `len(sentiments)` entries are the
input entries in order (the input list itself is a value that the call cannot
change); and whenever the scoring loop of `PolarityScores` completes, the
valence sequence has exactly one entry per token, entry `i` being the one that
the loop body appended for token `i` to the entries before it. -/
theorem SentimentValence_frame (hp : Helpers K) (sia : SentimentIntensityAnalyzer K)
    (sit : SentiText) :
    (∀ (valence : K) (item : String) (i : Int) (sentiments out : List K),
      SentimentValence hp sia valence sit item i sentiments = some out →
        out.length = sentiments.length + 1 ∧ out.take sentiments.length = sentiments) ∧
    (∀ vs : List K, scoringLoop hp sia sit = some vs →
      vs.length = sit.WordsAndEmoticons.length ∧
      ∀ (i : Nat) (item : String), sit.WordsAndEmoticons[i]? = some item →
        scoreToken hp sia sit (vs.take i) i item = some (vs.take (i + 1))) := by
  refine ⟨?_, fun vs h => scoringLoop_spec hp sia sit vs h⟩
  intro valence item i sentiments out h
  obtain ⟨v, _, e⟩ := SentimentValence_some _ _ _ _ _ _ _ _ h
  subst e
  simp

/-- Witness of C10: the tokens "very", "good", for which the loop returns the
valences 0 and 1.9, and the call of `SentimentValence` for "good". -/
theorem SentimentValence_frame_witness :
    SentimentValence sampleHelpers sampleAnalyzer 0
        { WordsAndEmoticons := ["very", "good"], WordsAndEmoticonsLower := ["very", "good"],
          IsCapDiff := false } "good" 1 [0] = some [0, 19 / 10] ∧
    scoringLoop sampleHelpers sampleAnalyzer
        { WordsAndEmoticons := ["very", "good"], WordsAndEmoticonsLower := ["very", "good"],
          IsCapDiff := false } = some [0, 19 / 10] ∧
    ([0, 19 / 10] : List ℚ).length = ([0] : List ℚ).length + 1 ∧
    ([0, 19 / 10] : List ℚ).length = ["very", "good"].length :=
  ⟨by decide!, by decide!,
   ((SentimentValence_frame sampleHelpers sampleAnalyzer
      { WordsAndEmoticons := ["very", "good"], WordsAndEmoticonsLower := ["very", "good"],
        IsCapDiff := false }).1 0 "good" 1 [0] [0, 19 / 10] (by decide!)).1,
   ((SentimentValence_frame sampleHelpers sampleAnalyzer
      { WordsAndEmoticons := ["very", "good"], WordsAndEmoticonsLower := ["very", "good"],
        IsCapDiff := false }).2 [0, 19 / 10] (by decide!)).1⟩

/-! ### Tokens that carry no valence -/

theorem tokenValence_absent (hp : Helpers K) (sia : SentimentIntensityAnalyzer K)
    (valence : K) (sit : SentiText) (item : String) (i : Int)
    (h : inStringMap sia.Lexicon (hp.ToLower item) = false) :
    tokenValence hp sia valence sit item i = some valence := by
  simp [tokenValence, h]

theorem scoreToken_zero (hp : Helpers K) (sia : SentimentIntensityAnalyzer K) (sit : SentiText)
    (sentiments out : List K) (i : Nat) (item itemLower : String)
    (hl : sit.WordsAndEmoticonsLower[i]? = some itemLower)
    (hc : inStringMap sia.Constants.BoosterDict itemLower = true ∨
      (itemLower = "kind" ∧ i + 1 < sit.WordsAndEmoticons.length ∧
        sit.WordsAndEmoticonsLower[i + 1]? = some "of") ∨
      inStringMap sia.Lexicon (hp.ToLower item) = false)
    (h : scoreToken hp sia sit sentiments i item = some out) :
    out = sentiments ++ [0] := by
  unfold scoreToken at h
  simp only [idx_natCast, idx_natCast_succ, hl, Option.some_bind, SentimentValence_eq] at h
  by_cases hb : inStringMap sia.Constants.BoosterDict itemLower = true
  · simp only [hb, if_true, Option.some.injEq] at h
    exact h.symm
  · have hb2 : inStringMap sia.Constants.BoosterDict itemLower = false := by simpa using hb
    simp only [hb2, Bool.false_eq_true, if_false] at h
    rcases hc with hc | ⟨hk, hlen, hof⟩ | hc
    · exact absurd hc hb
    · have hlt : (i : Int) < (sit.WordsAndEmoticons.length : Int) - 1 := by omega
      simp only [hlt, hk, and_self, if_true, hof, Option.some_bind, Option.some.injEq] at h
      exact h.symm
    · rw [tokenValence_absent hp sia 0 sit item i hc] at h
      simp only [Option.map_some'] at h
      split_ifs at h with h2
      · cases hn : sit.WordsAndEmoticonsLower[i + 1]? with
        | none => simp [hn] at h
        | some next =>
          simp only [hn, Option.some_bind, ite_self, Option.some.injEq] at h
          exact h.symm
      · exact (Option.some.inj h).symm

/-- C8: whenever the scoring loop of `PolarityScores` completes, the valence it
stored at position `i` is exactly 0 if the lower-cased token `i` is a
booster/dampener word, or is "kind" immediately followed by "of", or token `i`
lower-cases to a word absent from the lexicon; so a stored valence is non-zero
only for a token whose lower-cased form is a lexicon word and that is not such
a modifier. -/
theorem scoringLoop_modifier_zero (hp : Helpers K) (sia : SentimentIntensityAnalyzer K)
    (sit : SentiText) (vs : List K) (h : scoringLoop hp sia sit = some vs)
    (i : Nat) (item itemLower : String)
    (hi : sit.WordsAndEmoticons[i]? = some item)
    (hl : sit.WordsAndEmoticonsLower[i]? = some itemLower) :
    ((inStringMap sia.Constants.BoosterDict itemLower = true ∨
        (itemLower = "kind" ∧ i + 1 < sit.WordsAndEmoticons.length ∧
          sit.WordsAndEmoticonsLower[i + 1]? = some "of") ∨
        inStringMap sia.Lexicon (hp.ToLower item) = false) →
      vs[i]? = some 0) ∧
    (∀ v : K, vs[i]? = some v → v ≠ 0 →
      inStringMap sia.Lexicon (hp.ToLower item) = true ∧
      inStringMap sia.Constants.BoosterDict itemLower = false ∧
      ¬ (itemLower = "kind" ∧ i + 1 < sit.WordsAndEmoticons.length ∧
          sit.WordsAndEmoticonsLower[i + 1]? = some "of")) := by
  obtain ⟨hlen, hstep⟩ := scoringLoop_spec hp sia sit vs h
  have hlt : i < vs.length := by
    rw [hlen]
    exact (List.getElem?_eq_some.mp hi).1
  have key : ∀ _ : (inStringMap sia.Constants.BoosterDict itemLower = true ∨
        (itemLower = "kind" ∧ i + 1 < sit.WordsAndEmoticons.length ∧
          sit.WordsAndEmoticonsLower[i + 1]? = some "of") ∨
        inStringMap sia.Lexicon (hp.ToLower item) = false), vs[i]? = some 0 := by
    intro hc
    have e := scoreToken_zero hp sia sit (vs.take i) (vs.take (i + 1)) i item itemLower hl hc
      (hstep i item hi)
    have e2 : (vs.take (i + 1))[i]? = (vs.take i ++ [0])[i]? := by rw [e]
    rw [List.getElem?_take_of_lt (Nat.lt_succ_self i)] at e2
    rw [e2, List.getElem?_append_right (by simp [hlt.le])]
    simp [hlt.le]
  refine ⟨key, fun v hv hne => ?_⟩
  refine ⟨?_, ?_, ?_⟩
  · by_contra hc
    have := key (Or.inr (Or.inr (by simpa using hc)))
    rw [hv] at this
    exact hne (Option.some.inj this)
  · by_contra hc
    have := key (Or.inl (by simpa using hc))
    rw [hv] at this
    exact hne (Option.some.inj this)
  · intro hc
    have := key (Or.inr (Or.inl hc))
    rw [hv] at this
    exact hne (Option.some.inj this)

/-- Witness of C8: in the tokens "very", "good", "kind", "of", "x" the loop
stores 0 for the booster word "very" at index 0 and the non-zero 1.9 for the
lexicon word "good" at index 1. -/
theorem scoringLoop_modifier_zero_witness :
    scoringLoop sampleHelpers sampleAnalyzer
        { WordsAndEmoticons := ["very", "good", "kind", "of", "x"],
          WordsAndEmoticonsLower := ["very", "good", "kind", "of", "x"],
          IsCapDiff := false } = some [0, 19 / 10, 0, 0, 0] ∧
    inStringMap sampleAnalyzer.Constants.BoosterDict "very" = true ∧
    ([0, 19 / 10, 0, 0, 0] : List ℚ)[0]? = some 0 ∧
    inStringMap sampleAnalyzer.Lexicon (sampleHelpers.ToLower "good") = true :=
  ⟨by decide!, by decide,
   (scoringLoop_modifier_zero sampleHelpers sampleAnalyzer
      { WordsAndEmoticons := ["very", "good", "kind", "of", "x"],
        WordsAndEmoticonsLower := ["very", "good", "kind", "of", "x"],
        IsCapDiff := false } [0, 19 / 10, 0, 0, 0] (by decide!) 0 "very" "very"
      (by decide) (by decide)).1 (Or.inl (by decide)),
   ((scoringLoop_modifier_zero sampleHelpers sampleAnalyzer
      { WordsAndEmoticons := ["very", "good", "kind", "of", "x"],
        WordsAndEmoticonsLower := ["very", "good", "kind", "of", "x"],
        IsCapDiff := false } [0, 19 / 10, 0, 0, 0] (by decide!) 1 "good" "good"
      (by decide) (by decide)).2 (19 / 10) (by decide!) (by norm_num)).1⟩

/-! ### The local negation override for "no" -/

theorem lookBack_skip (hp : Helpers K) (sia : SentimentIntensityAnalyzer K) (sit : SentiText)
    (i : Int) (newValence : K) (startI : Int)
    (h : i > startI → ∃ w, idx sit.WordsAndEmoticons (i - (startI + 1)) = some w ∧
      inStringMap sia.Lexicon w = true) :
    lookBack hp sia sit i newValence startI = some newValence := by
  unfold lookBack
  by_cases hgt : i > startI
  · obtain ⟨w, hw, hin⟩ := h hgt
    simp [hgt, hw, hin]
  · simp [hgt]

theorem leastCheck_skip (sia : SentimentIntensityAnalyzer K) (valence : K)
    (wordsAndEmoticonsLower : List String) (i : Int)
    (h : i > 0 → ∃ w, idx wordsAndEmoticonsLower (i - 1) = some w ∧
      inStringMap sia.Lexicon w = true) :
    leastCheck sia valence wordsAndEmoticonsLower i = some valence := by
  have hc : leastCond sia wordsAndEmoticonsLower i = some false := by
    unfold leastCond
    by_cases hgt : i > 0
    · obtain ⟨w, hw, hin⟩ := h hgt
      simp [hgt, hw, hin]
    · simp [hgt]
  simp [leastCheck, hc]

/-- C9, as amended: when token `i` lower-cases to "no", "no" is a lexicon word
and token `i+1` is itself a lexicon word, `SentimentValence` replaces the base
valence by 0 before the later rules run, and the valence it stores for
position `i` is 0 provided none of them fires: the "no" trigram condition on
the preceding tokens is false, the token is not all upper-case under
capitalization contrast, and each of the up to three preceding tokens is
itself a lexicon word (so the look-back window and the "least" rule are
skipped). -/
theorem SentimentValence_no_next (hp : Helpers K) (sia : SentimentIntensityAnalyzer K)
    (valence : K) (sit : SentiText) (item : String) (i : Int) (sentiments : List K)
    (next : String)
    (hlow : hp.ToLower item = "no") (hlex : inStringMap sia.Lexicon "no" = true)
    (hnext : idx sit.WordsAndEmoticonsLower (i + 1) = some next)
    (hnl : inStringMap sia.Lexicon next = true)
    (hno : noBefore sit.WordsAndEmoticonsLower i = some false)
    (hcap : (sia.Constants.stringIsUpper item && sit.IsCapDiff) = false)
    (hback : ∀ startI : Int, 0 ≤ startI → startI < 3 → i > startI →
      ∃ w, idx sit.WordsAndEmoticons (i - (startI + 1)) = some w ∧
        inStringMap sia.Lexicon w = true) :
    SentimentValence hp sia valence sit item i sentiments = some (sentiments ++ [0]) := by
  have h0 := lookBack_skip hp sia sit i 0 0 (hback 0 (by norm_num) (by norm_num))
  have h1 := lookBack_skip hp sia sit i 0 1 (hback 1 (by norm_num) (by norm_num))
  have h2 := lookBack_skip hp sia sit i 0 2 (hback 2 (by norm_num) (by norm_num))
  have hl := leastCheck_skip sia 0 sit.WordsAndEmoticons i
    (fun hgt => by simpa using hback 0 (by norm_num) (by norm_num) hgt)
  rw [SentimentValence_eq]
  simp [tokenValence, hlow, hlex, hnext, hnl, hno, hcap, List.foldlM, h0, h1, h2, hl]

/-- Witness of C9 as amended: the tokens "good", "no", "good" at index 1. -/
theorem SentimentValence_no_next_witness :
    SentimentValence sampleHelpers sampleAnalyzer 0
      { WordsAndEmoticons := ["good", "no", "good"],
        WordsAndEmoticonsLower := ["good", "no", "good"], IsCapDiff := false }
      "no" 1 [19 / 10] = some ([19 / 10] ++ [0]) :=
  SentimentValence_no_next sampleHelpers sampleAnalyzer 0
    { WordsAndEmoticons := ["good", "no", "good"],
      WordsAndEmoticonsLower := ["good", "no", "good"], IsCapDiff := false }
    "no" 1 [19 / 10] "good" (by decide) (by decide) (by decide) (by decide)
    (by decide) (by decide)
    (fun startI h0 _ hgt => by
      have e : startI = 0 := by omega
      subst e
      exact ⟨"good", by decide, by decide⟩)

/-- Counterexample to C9 as stated.  In the tokens "no", "no", "good" the token
at index 1 is "no" followed by the lexicon word "good", yet the stored valence
is -1.2 * -0.74 = 0.888, because the "no" at index 0 fires the trigram rule.
In the tokens "NO", "good" with capitalization contrast the token at index 0
is "no" followed by a lexicon word, yet the stored valence is 0 - 0.733. -/
theorem SentimentValence_no_next_counterexample :
    sampleHelpers.ToLower "no" = "no" ∧ sampleHelpers.ToLower "NO" = "no" ∧
    inStringMap sampleAnalyzer.Lexicon "no" = true ∧
    inStringMap sampleAnalyzer.Lexicon "good" = true ∧
    SentimentValence sampleHelpers sampleAnalyzer 0
      { WordsAndEmoticons := ["no", "no", "good"],
        WordsAndEmoticonsLower := ["no", "no", "good"], IsCapDiff := false }
      "no" 1 [0] = some [0, 888 / 1000] ∧
    SentimentValence sampleHelpers sampleAnalyzer 0
      { WordsAndEmoticons := ["NO", "good"], WordsAndEmoticonsLower := ["no", "good"],
        IsCapDiff := true }
      "NO" 0 [] = some [-(733 / 1000)] := by
  decide!

end ScorerTheorems

/-! ## Text preparation: theorems -/

section TextPreparationTheorems

variable {K : Type}

theorem singleton_eq_space (c : Char) : String.singleton c = " " ↔ c = ' ' := by
  constructor
  · intro h
    have h2 := congrArg String.data h
    simpa using h2
  · intro h
    subst h
    rfl

theorem emojiStep_key (sia : SentimentIntensityAnalyzer K) (st : String × Bool) (c : Char)
    (d : String) (h : sia.EmojiDict (String.singleton c) = some d) :
    emojiStep sia st c = ((if st.2 then st.1 else st.1 ++ " ") ++ d, false) := by
  cases hb : st.2 <;> simp [emojiStep, inStringStringMap, h, hb]

theorem emojiStep_nokey (sia : SentimentIntensityAnalyzer K) (st : String × Bool) (c : Char)
    (h : sia.EmojiDict (String.singleton c) = none) :
    emojiStep sia st c = (st.1 ++ String.singleton c, decide (c = ' ')) := by
  unfold emojiStep
  simp only [inStringStringMap, h, Option.isSome_none, Bool.false_eq_true, if_false]
  by_cases hc : c = ' '
  · subst hc
    rfl
  · have hn : ¬ String.singleton c = " " := fun e => hc ((singleton_eq_space c).mp e)
    simp [hn, hc]

theorem emojiStep_prefix (sia : SentimentIntensityAnalyzer K) (s : String) (b : Bool)
    (c : Char) :
    emojiStep sia (s, b) c
      = (s ++ (emojiStep sia ("", b) c).1, (emojiStep sia ("", b) c).2) := by
  cases hk : sia.EmojiDict (String.singleton c) with
  | none => simp [emojiStep_nokey sia _ c hk]
  | some d =>
    rw [emojiStep_key sia _ c d hk, emojiStep_key sia _ c d hk]
    cases b <;> simp [String.append_assoc]

theorem emojiLoop_prefix (sia : SentimentIntensityAnalyzer K) (l : List Char) :
    ∀ (s : String) (b : Bool),
      emojiLoop sia l (s, b)
        = (s ++ (emojiLoop sia l ("", b)).1, (emojiLoop sia l ("", b)).2) := by
  induction l with
  | nil => intro s b; simp [emojiLoop]
  | cons c t ih =>
    intro s b
    have e1 : emojiLoop sia (c :: t) (s, b) = emojiLoop sia t (emojiStep sia (s, b) c) := rfl
    have e2 : emojiLoop sia (c :: t) ("", b) = emojiLoop sia t (emojiStep sia ("", b) c) := rfl
    rw [e1, e2, emojiStep_prefix sia s b c, ih (s ++ _) _, ih (emojiStep sia ("", b) c).1 _]
    simp [String.append_assoc]

theorem emojiLoop_append (sia : SentimentIntensityAnalyzer K) (l1 l2 : List Char)
    (st : String × Bool) :
    emojiLoop sia (l1 ++ l2) st = emojiLoop sia l2 (emojiLoop sia l1 st) := by
  simp [emojiLoop, List.foldl_append]

theorem emojiLoop_no_key (sia : SentimentIntensityAnalyzer K) (l : List Char) :
    ∀ (s : String) (b : Bool),
      (∀ c ∈ l, sia.EmojiDict (String.singleton c) = none) →
      (emojiLoop sia l (s, b)).1 = s ++ String.mk l := by
  induction l with
  | nil => intro s b _; exact String.ext (by simp [emojiLoop])
  | cons c t ih =>
    intro s b h
    have e1 : emojiLoop sia (c :: t) (s, b) = emojiLoop sia t (emojiStep sia (s, b) c) := rfl
    rw [e1, emojiStep_nokey sia _ c (h c (List.mem_cons_self c t)),
      ih _ _ (fun x hx => h x (List.mem_cons_of_mem c hx))]
    exact String.ext (by simp)

/-- C19: for every text none of whose characters is a key of the emoji
mapping, the emoji pass of `PolarityScores` copies the text unchanged, so the
text handed to tokenization is `strings.TrimSpace` of the input. -/
theorem prepareText_no_emoji (TrimSpace : String → String)
    (sia : SentimentIntensityAnalyzer K) (text : String)
    (h : ∀ c ∈ text.toList, sia.EmojiDict (String.singleton c) = none) :
    emojiPass sia text = text ∧ prepareText TrimSpace sia text = TrimSpace text := by
  have e : emojiPass sia text = text := by
    unfold emojiPass
    rw [emojiLoop_no_key sia text.toList "" true h]
    exact String.ext (by simp)
  exact ⟨e, by rw [prepareText, e]⟩

/-- Witness of C19: the text " so good " under the sample emoji mapping. -/
theorem prepareText_no_emoji_witness :
    (∀ c ∈ " so good ".toList, sampleEmojiAnalyzer.EmojiDict (String.singleton c) = none) ∧
    prepareText String.trim sampleEmojiAnalyzer " so good " = String.trim " so good " :=
  ⟨by decide,
   (prepareText_no_emoji String.trim sampleEmojiAnalyzer " so good " (by decide)).2⟩

theorem emojiPass_split (sia : SentimentIntensityAnalyzer K) (text : String)
    (pre post : List Char) (c : Char) (d : String)
    (ht : text.toList = pre ++ c :: post)
    (hk : sia.EmojiDict (String.singleton c) = some d) :
    emojiPass sia text
      = (if (emojiLoop sia pre ("", true)).2 then emojiPass sia (String.mk pre)
          else emojiPass sia (String.mk pre) ++ " ")
        ++ d ++ (emojiLoop sia post ("", false)).1 := by
  have e1 : emojiLoop sia (c :: post) (emojiLoop sia pre ("", true))
      = emojiLoop sia post (emojiStep sia (emojiLoop sia pre ("", true)) c) := rfl
  unfold emojiPass
  rw [ht, emojiLoop_append, e1, emojiStep_key sia _ c d hk, emojiLoop_prefix]
  simp only [String.toList]

theorem emojiPass_copy (sia : SentimentIntensityAnalyzer K) (text : String)
    (pre key post : List Char)
    (ht : text.toList = pre ++ key ++ post)
    (hk : ∀ c ∈ key, sia.EmojiDict (String.singleton c) = none) :
    ∃ b : Bool,
      emojiPass sia text
        = emojiPass sia (String.mk pre) ++ String.mk key ++ (emojiLoop sia post ("", b)).1 := by
  refine ⟨(emojiLoop sia key (emojiLoop sia pre ("", true))).2, ?_⟩
  have e1 : (emojiLoop sia key (emojiLoop sia pre ("", true))).1
      = (emojiLoop sia pre ("", true)).1 ++ String.mk key :=
    emojiLoop_no_key sia key (emojiLoop sia pre ("", true)).1 (emojiLoop sia pre ("", true)).2 hk
  unfold emojiPass
  rw [ht, emojiLoop_append, emojiLoop_append]
  have e2 := emojiLoop_prefix sia post (emojiLoop sia key (emojiLoop sia pre ("", true))).1
    (emojiLoop sia key (emojiLoop sia pre ("", true))).2
  simp only [Prod.mk.eta] at e2
  rw [e2, e1]
  simp only [String.toList]

/-- C17, as amended: the emoji scan of `PolarityScores` visits the text one
Unicode code point at a time.  Every occurrence of a key that is a single code
point is replaced by the key's description (after one space unless the scan
is at a separator).  Keys of more than one code point are never looked up: the
result depends only on the one-code-point keys of the mapping, and an
occurrence of a string none of whose code points is itself a key (such as a
key of several code points) is copied unchanged. -/
theorem emojiPass_single_code_point (sia : SentimentIntensityAnalyzer K) (text : String) :
    (∀ (pre post : List Char) (c : Char) (d : String),
      text.toList = pre ++ c :: post →
      sia.EmojiDict (String.singleton c) = some d →
      emojiPass sia text
        = (if (emojiLoop sia pre ("", true)).2 then emojiPass sia (String.mk pre)
            else emojiPass sia (String.mk pre) ++ " ")
          ++ d ++ (emojiLoop sia post ("", false)).1) ∧
    (∀ sia2 : SentimentIntensityAnalyzer K,
      (∀ c : Char, sia2.EmojiDict (String.singleton c) = sia.EmojiDict (String.singleton c)) →
      emojiPass sia2 text = emojiPass sia text) ∧
    (∀ (pre key post : List Char),
      text.toList = pre ++ key ++ post →
      (∀ c ∈ key, sia.EmojiDict (String.singleton c) = none) →
      ∃ b : Bool,
        emojiPass sia text
          = emojiPass sia (String.mk pre) ++ String.mk key
            ++ (emojiLoop sia post ("", b)).1) := by
  refine ⟨fun pre post c d ht hk => emojiPass_split sia text pre post c d ht hk, ?_,
    fun pre key post ht hk => emojiPass_copy sia text pre key post ht hk⟩
  intro sia2 h
  have hstep : ∀ (st : String × Bool) (c : Char), emojiStep sia2 st c = emojiStep sia st c := by
    intro st c
    simp [emojiStep, inStringStringMap, h c]
  have hloop : ∀ (l : List Char) (st : String × Bool),
      emojiLoop sia2 l st = emojiLoop sia l st := by
    intro l
    induction l with
    | nil => intro st; rfl
    | cons c t ih =>
      intro st
      have e1 : emojiLoop sia2 (c :: t) st = emojiLoop sia2 t (emojiStep sia2 st c) := rfl
      have e2 : emojiLoop sia (c :: t) st = emojiLoop sia t (emojiStep sia st c) := rfl
      rw [e1, e2, hstep, ih]
  simp [emojiPass, hloop]

/-- Witness of C17 as amended: the text "go" followed by the one-code-point
key U+1F601, which is replaced, and the text "I \u2764\uFE0F it", in which the
two code points of the key U+2764 U+FE0F are copied unchanged. -/
theorem emojiPass_single_code_point_witness :
    sampleEmojiAnalyzer.EmojiDict (String.singleton (Char.ofNat 0x1F601))
      = some "beaming face" ∧
    emojiPass sampleEmojiAnalyzer (String.mk ['g', 'o', Char.ofNat 0x1F601])
      = (if (emojiLoop sampleEmojiAnalyzer ['g', 'o'] ("", true)).2
          then emojiPass sampleEmojiAnalyzer (String.mk ['g', 'o'])
          else emojiPass sampleEmojiAnalyzer (String.mk ['g', 'o']) ++ " ")
        ++ "beaming face" ++ (emojiLoop sampleEmojiAnalyzer [] ("", false)).1 ∧
    emojiPass sampleEmojiAnalyzer (String.mk ['g', 'o', Char.ofNat 0x1F601])
      = "go beaming face" ∧
    (∀ c ∈ "\u2764\uFE0F".toList,
      sampleEmojiAnalyzer.EmojiDict (String.singleton c) = none) ∧
    (∃ b : Bool,
      emojiPass sampleEmojiAnalyzer "I \u2764\uFE0F it"
        = emojiPass sampleEmojiAnalyzer (String.mk "I ".toList)
          ++ String.mk "\u2764\uFE0F".toList
          ++ (emojiLoop sampleEmojiAnalyzer " it".toList ("", b)).1) :=
  ⟨by decide,
   (emojiPass_single_code_point sampleEmojiAnalyzer
      (String.mk ['g', 'o', Char.ofNat 0x1F601])).1 ['g', 'o'] [] (Char.ofNat 0x1F601)
      "beaming face" rfl (by decide),
   by decide, by decide,
   (emojiPass_single_code_point sampleEmojiAnalyzer "I \u2764\uFE0F it").2.2
      "I ".toList "\u2764\uFE0F".toList " it".toList (by decide) (by decide)⟩

/-- Counterexample to C17 as stated: the key U+2764 U+FE0F (two code points,
description "red heart") occurs in the text "I \u2764\uFE0F it", and the
emoji-substituted text is the unchanged input: the occurrence is not
replaced. -/
theorem emojiPass_grapheme_counterexample :
    sampleEmojiAnalyzer.EmojiDict "\u2764\uFE0F" = some "red heart" ∧
    "\u2764\uFE0F".length = 2 ∧
    "I \u2764\uFE0F it" = "I " ++ "\u2764\uFE0F" ++ " it" ∧
    emojiPass sampleEmojiAnalyzer "I \u2764\uFE0F it" = "I \u2764\uFE0F it" ∧
    emojiPass sampleEmojiAnalyzer "I \u2764\uFE0F it" ≠ "I red heart it" := by
  decide

/-! ### No double space -/

theorem emojiStep_inv (sia : SentimentIntensityAnalyzer K)
    (hDesc : ∀ (k d : String), sia.EmojiDict k = some d → CleanDescription d)
    (processed : List Char) (st : String × Bool) (c : Char)
    (ha : st.2 = true ↔ (st.1.data = [] ∨ st.1.data.getLast? = some ' '))
    (hb : st.1.data.getLast? = some ' ' → processed.getLast? = some ' ')
    (hc : NoDoubleSpace st.1.data)
    (hnd : ¬ (processed.getLast? = some ' ' ∧ c = ' ')) :
    ((emojiStep sia st c).2 = true ↔
      ((emojiStep sia st c).1.data = [] ∨ (emojiStep sia st c).1.data.getLast? = some ' ')) ∧
    ((emojiStep sia st c).1.data.getLast? = some ' ' →
      (processed ++ [c]).getLast? = some ' ') ∧
    NoDoubleSpace (emojiStep sia st c).1.data := by
  cases hk : sia.EmojiDict (String.singleton c) with
  | none =>
    rw [emojiStep_nokey sia st c hk]
    simp only [String.data_append, String.data_singleton, List.getLast?_concat,
      Option.some.injEq, decide_eq_true_eq, List.append_eq_nil, and_false, false_or,
      List.cons_ne_self, iff_self, true_and]
    refine ⟨fun h => h, ?_⟩
    unfold NoDoubleSpace at hc ⊢
    rw [List.chain'_append]
    refine ⟨hc, List.chain'_singleton c, ?_⟩
    intro x hx y hy
    simp only [List.head?_cons, Option.mem_def, Option.some.injEq] at hy hx
    subst hy
    rintro ⟨rfl, rfl⟩
    exact hnd ⟨hb hx, rfl⟩
  | some d =>
    obtain ⟨hne, hhead, hlast, hchain⟩ := hDesc _ d hk
    simp only [String.toList] at hne hhead hlast hchain
    rw [emojiStep_key sia st c d hk]
    obtain ⟨z, hz⟩ : ∃ z, d.data.getLast? = some z := by
      cases hq : d.data.getLast? with
      | none => exact absurd (List.getLast?_eq_none_iff.mp hq) hne
      | some z => exact ⟨z, rfl⟩
    have hzne : z ≠ ' ' := fun e => hlast (by rw [hz, e])
    have hlastOut : ∀ pre : List Char, (pre ++ d.data).getLast? = some z := by
      intro pre
      rw [List.getLast?_append, hz]
      rfl
    have hhd : ∀ y, d.data.head? = some y → y ≠ ' ' := fun y hy e => hhead (by rw [hy, e])
    unfold NoDoubleSpace at hc hchain ⊢
    cases hst : st.2 with
    | true =>
      simp only [if_true, String.data_append, hlastOut, Option.some.injEq,
        List.append_eq_nil, hne, and_false, false_or, Bool.false_eq_true, false_iff]
      refine ⟨hzne, fun h => absurd h hzne, ?_⟩
      rw [List.chain'_append]
      refine ⟨hc, hchain, ?_⟩
      intro x _ y hy
      rintro ⟨_, rfl⟩
      exact hhd _ hy rfl
    | false =>
      have hnl : st.1.data.getLast? ≠ some ' ' := by
        intro e
        have := ha.mpr (Or.inr e)
        rw [hst] at this
        exact Bool.noConfusion this
      simp only [Bool.false_eq_true, if_false, String.data_append, hlastOut,
        Option.some.injEq, List.append_eq_nil, hne, and_false, false_or, false_iff]
      refine ⟨hzne, fun h => absurd h hzne, ?_⟩
      rw [List.chain'_append]
      refine ⟨?_, hchain, ?_⟩
      · rw [List.chain'_append]
        refine ⟨hc, List.chain'_singleton _, ?_⟩
        intro x hx y _
        rintro ⟨rfl, _⟩
        exact hnl hx
      · intro x _ y hy
        rintro ⟨_, rfl⟩
        exact hhd _ hy rfl

theorem emojiLoop_inv (sia : SentimentIntensityAnalyzer K)
    (hDesc : ∀ (k d : String), sia.EmojiDict k = some d → CleanDescription d)
    (l : List Char) :
    ∀ (processed : List Char) (st : String × Bool),
      (st.2 = true ↔ (st.1.data = [] ∨ st.1.data.getLast? = some ' ')) →
      (st.1.data.getLast? = some ' ' → processed.getLast? = some ' ') →
      NoDoubleSpace st.1.data →
      NoDoubleSpace (processed ++ l) →
      ((emojiLoop sia l st).2 = true ↔
        ((emojiLoop sia l st).1.data = [] ∨
          (emojiLoop sia l st).1.data.getLast? = some ' ')) ∧
      NoDoubleSpace (emojiLoop sia l st).1.data := by
  induction l with
  | nil => intro processed st ha _ hc _; exact ⟨ha, hc⟩
  | cons c t ih =>
    intro processed st ha hb hc hnd
    have e1 : emojiLoop sia (c :: t) st = emojiLoop sia t (emojiStep sia st c) := rfl
    have hjoin : ¬ (processed.getLast? = some ' ' ∧ c = ' ') := by
      unfold NoDoubleSpace at hnd
      rw [List.chain'_append] at hnd
      rintro ⟨h1, h2⟩
      exact hnd.2.2 ' ' h1 c (by simp) ⟨rfl, h2⟩
    obtain ⟨ha2, hb2, hc2⟩ := emojiStep_inv sia hDesc processed st c ha hb hc hjoin
    rw [e1]
    exact ih (processed ++ [c]) _ ha2 hb2 hc2 (by simpa using hnd)

/-- C11: for every text without two consecutive spaces and every emoji
mapping whose descriptions are non-empty and have no leading, trailing or
doubled space, the emoji-substituted text has no two consecutive spaces; and
each emoji character is replaced by its description, preceded by one inserted
space exactly when a character has been emitted before it and that character
is not a space. -/
theorem emojiPass_no_double_space (sia : SentimentIntensityAnalyzer K) (text : String)
    (hText : NoDoubleSpace text.toList)
    (hDesc : ∀ (k d : String), sia.EmojiDict k = some d → CleanDescription d) :
    NoDoubleSpace (emojiPass sia text).toList ∧
    ∀ (pre post : List Char) (c : Char) (d : String),
      text.toList = pre ++ c :: post →
      sia.EmojiDict (String.singleton c) = some d →
      ∃ rest : String,
        emojiPass sia text
          = emojiPass sia (String.mk pre)
            ++ (if (emojiPass sia (String.mk pre)).toList.getLast? = none ∨
                  (emojiPass sia (String.mk pre)).toList.getLast? = some ' '
                then "" else " ")
            ++ d ++ rest := by
  constructor
  · exact (emojiLoop_inv sia hDesc text.toList [] ("", true) (by simp) (by simp)
      List.chain'_nil (by simpa using hText)).2
  · intro pre post c d ht hk
    refine ⟨(emojiLoop sia post ("", false)).1, ?_⟩
    have hpre : NoDoubleSpace ([] ++ pre) := by
      unfold NoDoubleSpace at hText ⊢
      rw [ht, List.chain'_append] at hText
      simpa using hText.1
    have hflag := (emojiLoop_inv sia hDesc pre [] ("", true) (by simp) (by simp)
      List.chain'_nil hpre).1
    rw [emojiPass_split sia text pre post c d ht hk]
    have e : emojiPass sia (String.mk pre) = (emojiLoop sia pre ("", true)).1 := rfl
    simp only [String.toList, e, List.getLast?_eq_none_iff]
    by_cases hf : (emojiLoop sia pre ("", true)).2 = true
    · rw [if_pos hf, if_pos (hflag.mp hf)]
      simp
    · rw [if_neg hf, if_neg (fun h => hf (hflag.mpr h))]

theorem sampleEmojiDict_clean (k d : String) (h : sampleEmojiDict k = some d) :
    CleanDescription d := by
  unfold sampleEmojiDict at h
  split_ifs at h
  · cases h
    refine ⟨by decide, by decide, by decide, ?_⟩
    simp [NoDoubleSpace]
  · cases h
    refine ⟨by decide, by decide, by decide, ?_⟩
    simp [NoDoubleSpace]

/-- Witness of C11: the text "go" U+1F601 " " U+1F601 U+1F601 under the sample
emoji mapping: a space is inserted before the first and the third emoji, not
before the second. -/
theorem emojiPass_no_double_space_witness :
    NoDoubleSpace
      (String.mk ['g', 'o', Char.ofNat 0x1F601, ' ', Char.ofNat 0x1F601,
        Char.ofNat 0x1F601]).toList ∧
    emojiPass sampleEmojiAnalyzer
        (String.mk ['g', 'o', Char.ofNat 0x1F601, ' ', Char.ofNat 0x1F601,
          Char.ofNat 0x1F601])
      = "go beaming face beaming face beaming face" ∧
    NoDoubleSpace
      (emojiPass sampleEmojiAnalyzer
        (String.mk ['g', 'o', Char.ofNat 0x1F601, ' ', Char.ofNat 0x1F601,
          Char.ofNat 0x1F601])).toList :=
  ⟨by simp [NoDoubleSpace], by decide,
   (emojiPass_no_double_space sampleEmojiAnalyzer
      (String.mk ['g', 'o', Char.ofNat 0x1F601, ' ', Char.ofNat 0x1F601,
        Char.ofNat 0x1F601])
      (by simp [NoDoubleSpace]) sampleEmojiDict_clean).1⟩

end TextPreparationTheorems

/-! ## Aggregator: monotonicity and the all-neutral case -/

section AggregatorFurther

variable {K : Type} [LinearOrderedField K]

theorem ScoreValence_compound_eq (sqrt : K → K) (amp : String → K)
    (sentiments : List K) (text : String) :
    (ScoreValence sqrt amp sentiments text).Compound
      = normalizeDefault sqrt (ScoreValence.sumS amp sentiments text) := by
  rw [ScoreValence_compound]
  split_ifs with h
  · subst h
    simp [ScoreValence.sumS, normalizeDefault_zero]
  · rfl

theorem sumS_mono (amp : String → K) (text : String) (hamp : 0 ≤ amp text)
    (s1 s2 : List K) (h : s1.sum ≤ s2.sum) :
    ScoreValence.sumS amp s1 text ≤ ScoreValence.sumS amp s2 text := by
  unfold ScoreValence.sumS
  simp only
  split_ifs <;> linarith

/-- C13: for a fixed text whose punctuation amplifier is non-negative, the
Compound returned by `ScoreValence` is monotonically non-decreasing in the raw
sum of the valences: sequences with sums `s1 <= s2` give
`Compound(s1) <= Compound(s2)`, across the sign-dependent addition and
subtraction of the amplifier. -/
theorem ScoreValence_compound_mono (sqrt : K → K) (hs : IsSqrt sqrt) (amp : String → K)
    (text : String) (hamp : 0 ≤ amp text) (s1 s2 : List K) (h : s1.sum ≤ s2.sum) :
    (ScoreValence sqrt amp s1 text).Compound ≤ (ScoreValence sqrt amp s2 text).Compound := by
  rw [ScoreValence_compound_eq, ScoreValence_compound_eq]
  exact normalizeDefault_mono hs (sumS_mono amp text hamp s1 s2 h)

/-- Witness of C13: the sequences [-1] and [1, 1] with the text "!!" and the
real square root. -/
theorem ScoreValence_compound_mono_witness :
    IsSqrt Real.sqrt ∧ (0 : ℝ) ≤ amplifyEP "!!" ∧
    ([-1] : List ℝ).sum ≤ ([1, 1] : List ℝ).sum ∧
    (ScoreValence Real.sqrt amplifyEP ([-1] : List ℝ) "!!").Compound
      ≤ (ScoreValence Real.sqrt amplifyEP ([1, 1] : List ℝ) "!!").Compound :=
  ⟨isSqrt_real, amplifyEP_nonneg _, by norm_num,
   ScoreValence_compound_mono Real.sqrt isSqrt_real amplifyEP "!!" (amplifyEP_nonneg _)
     [-1] [1, 1] (by norm_num)⟩

theorem sift_all_zero (sentiments : List K) (hz : ∀ v ∈ sentiments, v = 0) :
    siftSentimentScores sentiments = (0, 0, sentiments.length) := by
  have h1 : sentiments.filter (fun v => decide (0 < v)) = [] := by
    rw [List.filter_eq_nil_iff]
    intro a ha
    simp [hz a ha]
  have h2 : sentiments.filter (fun v => decide (v < 0)) = [] := by
    rw [List.filter_eq_nil_iff]
    intro a ha
    simp [hz a ha]
  have h3 : sentiments.filter (fun v => decide (v = 0)) = sentiments := by
    rw [List.filter_eq_self]
    intro a ha
    simp [hz a ha]
  simp [siftSentimentScores, h1, h2, h3]

/-- C18: for every non-empty valence sequence all of whose entries are exactly
0 and every text, whatever its punctuation, `ScoreValence` returns Negative 0,
Positive 0, Compound 0 and Neutral 1. -/
theorem ScoreValence_all_zero (sqrt : K → K) (amp : String → K)
    (sentiments : List K) (text : String)
    (hne : sentiments ≠ []) (hz : ∀ v ∈ sentiments, v = 0) :
    ScoreValence sqrt amp sentiments text
      = { Negative := 0, Neutral := 1, Positive := 0, Compound := 0 } := by
  have hlen : sentiments.length > 0 := List.length_pos.mpr hne
  have hsum : sentiments.sum = 0 := List.sum_eq_zero hz
  have hn : ((sentiments.length : Nat) : K) ≠ 0 := by
    exact_mod_cast (Nat.pos_iff_ne_zero.mp hlen)
  have hsums : ScoreValence.sums amp sentiments text = (0, 0, sentiments.length) := by
    simp [ScoreValence.sums, sift_all_zero sentiments hz]
  have htot : ScoreValence.total amp sentiments text = (sentiments.length : K) := by
    simp [ScoreValence.total, hsums]
  have hS : ScoreValence.sumS amp sentiments text = 0 := by
    simp [ScoreValence.sumS, hsum]
  simp only [ScoreValence, hlen, if_true, hsums, htot, hS, normalizeDefault_zero,
    zero_div, abs_zero, div_self hn, abs_one]

/-- Witness of C18: the sequence [0, 0] with the text "what?!". -/
theorem ScoreValence_all_zero_witness :
    ([0, 0] : List ℚ) ≠ [] ∧ (∀ v ∈ ([0, 0] : List ℚ), v = 0) ∧
    ScoreValence (fun x => x) amplifyEP ([0, 0] : List ℚ) "what?!"
      = { Negative := 0, Neutral := 1, Positive := 0, Compound := 0 } :=
  ⟨by simp, by simp,
   ScoreValence_all_zero (fun x => x) amplifyEP ([0, 0] : List ℚ) "what?!"
     (by simp) (by simp)⟩

end AggregatorFurther

/-! ## Per-token valence scorer: emphasis, lower-casing and the "least" branches -/

section ScorerFurther

variable {K : Type} [LinearOrderedField K]

/-- C16: the two branches of `leastCheck` amount to one: for every valence,
token sequence and index, `leastCheck` gives the result of the function with
the else-if branch removed (also when that is an out-of-range failure); the
second branch is never taken. -/
theorem leastCheck_eq_single (sia : SentimentIntensityAnalyzer K) (valence : K)
    (wordsAndEmoticonsLower : List String) (i : Int) :
    leastCheck sia valence wordsAndEmoticonsLower i
      = leastCheckSingle sia valence wordsAndEmoticonsLower i := by
  unfold leastCheck leastCheckSingle
  cases hc : leastCond sia wordsAndEmoticonsLower i with
  | none => rfl
  | some c =>
    cases c
    · simp
    · simp

theorem tokenValence_first (hp : Helpers K) (sia : SentimentIntensityAnalyzer K)
    (valence : K) (sit : SentiText) (item : String)
    (hlex : inStringMap sia.Lexicon (hp.ToLower item) = true)
    (hno : hp.ToLower item ≠ "no" ∨
      ∃ next, idx sit.WordsAndEmoticonsLower 1 = some next ∧
        inStringMap sia.Lexicon next = false) :
    tokenValence hp sia valence sit item 0
      = some (if (sia.Constants.stringIsUpper item && sit.IsCapDiff) = true then
          (if mapGet sia.Lexicon (hp.ToLower item) > 0
            then mapGet sia.Lexicon (hp.ToLower item) + cINCR
            else mapGet sia.Lexicon (hp.ToLower item) - cINCR)
        else mapGet sia.Lexicon (hp.ToLower item)) := by
  have hb : noBefore sit.WordsAndEmoticonsLower 0 = some false := by
    simp [noBefore]
  have hl : ∀ v : K, leastCheck sia v sit.WordsAndEmoticons 0 = some v := by
    intro v
    simp [leastCheck, leastCond]
  have hk : ∀ (v : K) (startI : Int), 0 ≤ startI → lookBack hp sia sit 0 v startI = some v := by
    intro v startI h0
    have : ¬ ((0 : Int) > startI) := not_lt.mpr h0
    simp [lookBack, this]
  have hfold : ∀ v : K, [0, 1, 2].foldlM (lookBack hp sia sit 0) v = some v := by
    intro v
    simp [List.foldlM, hk]
  rcases hno with hno | ⟨next, hnext, hnl⟩
  · simp [tokenValence, hlex, hno, hb, hfold, hl]
  · by_cases hn : hp.ToLower item = "no"
    · have hlex2 : inStringMap sia.Lexicon "no" = true := by rw [← hn]; exact hlex
      simp [tokenValence, hlex2, hn, hnext, hnl, hb, hfold, hl]
    · simp [tokenValence, hlex, hn, hb, hfold, hl]

/-- C14 (the code departs from the claim): when the first token lower-cases to
"no", "no" is a lexicon word and no token follows, so that it is not "no"
followed by a lexicon word, `SentimentValence` at index 0 fails with an
out-of-range access on `wordsAndEmoticonsLower[1]` instead of storing the
lexicon value or its all-caps emphasis. -/
theorem SentimentValence_first_no_alone (hp : Helpers K)
    (sia : SentimentIntensityAnalyzer K) (valence : K) (sit : SentiText) (item : String)
    (sentiments : List K)
    (hlow : hp.ToLower item = "no") (hlex : inStringMap sia.Lexicon "no" = true)
    (hone : sit.WordsAndEmoticonsLower.length = 1) :
    idx sit.WordsAndEmoticonsLower 1 = none ∧
    SentimentValence hp sia valence sit item 0 sentiments = none := by
  have h1 : idx sit.WordsAndEmoticonsLower 1 = none :=
    idx_of_length_le _ _ (by rw [hone]; norm_num)
  refine ⟨h1, ?_⟩
  simp [SentimentValence, tokenValence, hlow, hlex, h1]

/-- Witness of C14: the one-token sequence "NO" scored at index 0. -/
theorem SentimentValence_first_no_alone_witness :
    sampleHelpers.ToLower "NO" = "no" ∧ inStringMap sampleAnalyzer.Lexicon "no" = true ∧
    SentimentValence sampleHelpers sampleAnalyzer 0
      { WordsAndEmoticons := ["NO"], WordsAndEmoticonsLower := ["no"], IsCapDiff := false }
      "NO" 0 [] = none :=
  ⟨by decide, by decide,
   (SentimentValence_first_no_alone sampleHelpers sampleAnalyzer 0
      { WordsAndEmoticons := ["NO"], WordsAndEmoticonsLower := ["no"], IsCapDiff := false }
      "NO" [] (by decide) (by decide) (by decide)).2⟩

/-- C15 (the code departs from the claim): for the tokens "THE", "LEAST",
"good" scored at index 2, `SentimentValence` reads the preceding tokens in
their original case, finds no "least" and stores the lexicon value 1.9; the
variant that reads the lower-cased view applies the "least" rule and stores
1.9 * -0.74 = -1.406. -/
theorem SentimentValence_original_case_differs :
    SentimentValence sampleHelpers sampleAnalyzer 0
        { WordsAndEmoticons := ["THE", "LEAST", "good"],
          WordsAndEmoticonsLower := ["the", "least", "good"], IsCapDiff := true }
        "good" 2 [0, 0] = some [0, 0, 19 / 10] ∧
    SentimentValenceLower sampleHelpers sampleAnalyzer 0
        { WordsAndEmoticons := ["THE", "LEAST", "good"],
          WordsAndEmoticonsLower := ["the", "least", "good"], IsCapDiff := true }
        "good" 2 [0, 0] = some [0, 0, -(1406 / 1000)] := by
  decide!

end ScorerFurther

end Govader
